import Mathlib

/-!
The DICOM send engine of tonoka (`src/dicomsender.cpp`).

A shallow embedding of `DICOMSender::ScanFile`, `ScanDir`, `SendABatch` and
`SendStudy`.  The collaborators (the cancel flag, the DCMTK `DcmSCU` transport,
the file system, `PatientData`) are an environment: every call to one of them is
appended to an event list, and the answer of a call is a function of the whole
history of events so far, so that any behaviour of the collaborators is an
environment.  Each function takes the history at its entry and returns the
events it adds, in chronological order.
-/

namespace Tonoka

/-! ## Containers -/

/-- Lexicographic "less" of two sequences, as `std::lexicographical_compare`. -/
def lexLess {α : Type} (lt : α → α → Bool) : List α → List α → Bool
  | [], [] => false
  | [], _ :: _ => true
  | _ :: _, [] => false
  | a :: as, b :: bs => lt a b || (!lt b a && lexLess lt as bs)

/-- The order of `std::string` keys (`std::less<std::string>`): character by character. -/
def stringLess (a b : String) : Bool :=
  lexLess (fun x y => decide (x.toNat < y.toNat)) a.toList b.toList

/-- `std::map<K, V, Compare>::insert(std::pair<K, V>)` on the sorted sequence of
entries: the entry is placed at its position in the order, and nothing is done
when an entry with an equivalent key is already there. -/
def mapInsert {K V : Type} (lt : K → K → Bool) (k : K) (v : V) : List (K × V) → List (K × V)
  | [] => [(k, v)]
  | (k1, v1) :: rest =>
    if lt k k1 then (k, v) :: (k1, v1) :: rest
    else if lt k1 k then (k1, v1) :: mapInsert lt k v rest
    else (k1, v1) :: rest

/-- `std::set<std::string>::insert`. -/
def setInsert (x : String) : List String → List String
  | [] => [x]
  | y :: rest =>
    if stringLess x y then x :: y :: rest
    else if stringLess y x then y :: setInsert x rest
    else y :: rest

/-- The type `mapset` of the source, `std::map<std::string, std::set<std::string>>`
(the ClassFormatGrouping), as its sequence of entries in iteration order. -/
abbrev mapset := List (String × List String)

/-- The statement `m[key].insert(x)` on a `mapset`: `operator[]` creates the entry
with an empty set when the key is absent. -/
def mapsetAdd (key x : String) : mapset → mapset
  | [] => [(key, setInsert x [])]
  | (k1, s1) :: rest =>
    if stringLess key k1 then (key, setInsert x []) :: (k1, s1) :: rest
    else if stringLess k1 key then (k1, s1) :: mapsetAdd key x rest
    else (k1, setInsert x s1) :: rest

/-! ## The natural order of instance identifiers -/

/-- Pieces of an identifier: a run of digits is one number piece `(0, value)`, any
other character is a piece `(1, code)`. -/
def naturalChunks : List Char → Option Nat → List (Nat × Nat)
  | [], none => []
  | [], some n => [(0, n)]
  | c :: cs, acc =>
    if c.isDigit then naturalChunks cs (some (10 * acc.getD 0 + (c.toNat - 48)))
    else
      match acc with
      | none => (1, c.toNat) :: naturalChunks cs none
      | some n => (0, n) :: (1, c.toNat) :: naturalChunks cs none

/-- Order of two pieces: first by kind, then by value. -/
def chunkLess (a b : Nat × Nat) : Bool :=
  decide (a.1 < b.1) || (decide (a.1 = b.1) && decide (a.2 < b.2))

/-- Modelled from the spec: the comparator of `naturalpathmap`, declared in
`dicomsender.h` which is not among the sources.  The spec: "numeric-aware lexical
ordering, i.e., embedded integers compare by value, not character-by-character". -/
def naturalLess (a b : String) : Bool :=
  lexLess chunkLess (naturalChunks a.toList none) (naturalChunks b.toList none)

/-- Modelled from the spec: the type `naturalpathmap` of `dicomsender.h`, the
"ordered-by-identifier, unique-by-identifier collection" from instance identifier to
file location: a `std::map` under the natural order, as its sequence of entries in
iteration order. -/
abbrev naturalpathmap := List (String × String)

/-! ## Events and environment -/

/-- Result of `DcmSCU::sendSTORERequest` as `SendABatch` tells them apart. -/
inductive StoreCond where
  | good
  | peerAborted
  | otherError
deriving DecidableEq, Repr

/-- The places where the source calls `IsCanceled()`. -/
inductive Site where
  | scanDir
  | batchEntry
  | batchItem
  | sleepLoop
  | loopCond
deriving DecidableEq, Repr

/-- One call to a collaborator, with its answer. -/
inductive Event where
  | isCanceled (site : Site) (answer : Bool)
  | addPresentationContext (abstractSyntax : String) (xfers : List String)
  | initNetwork (good : Bool)
  | negotiateAssociation (good : Bool)
  | sendSTORERequest (sopuid : String) (path : String) (cond : StoreCond)
  | releaseAssociation
  | sleep (amount : Nat)
  | setStudyCheck (study_uid : String) (checked : Bool)
deriving DecidableEq, Repr

/-- Behaviour of the collaborators: the answer of each call, given the history. -/
structure Env where
  cancelEvent : List Event → Bool
  initNetwork : List Event → Bool
  negotiateAssociation : List Event → Bool
  sendSTORERequest : List Event → String → String → StoreCond

/-- The call `IsCanceled()` at a site: the event it appends. -/
def IsCanceled (env : Env) (h : List Event) (site : Site) : Bool × List Event :=
  (env.cancelEvent h, [Event.isCanceled site (env.cancelEvent h)])

/-! ## The scan -/

/-- The four values `ScanFile` reads from a file that loads. -/
structure DcmInfo where
  studyuid : String
  sopuid : String
  sopclassuid : String
  xfer : String
deriving DecidableEq, Repr

/-- A node of the file system, with what `DcmFileFormat::loadFile` gives for a
regular file (`none`: the file does not load) and the entries of a directory in
the order the directory iterator yields them. -/
inductive DirEntry where
  | regularFile (path : String) (content : Option DcmInfo)
  | directory (path : String) (entries : List DirEntry)
  | other (path : String)

/-- The three reference parameters of `ScanDir` and `ScanFile`. -/
structure ScanState where
  instances : naturalpathmap
  grouping : mapset
  study_uid : String
deriving DecidableEq, Repr

/-- The locals of `SendStudy` before the scan. -/
def ScanState.init : ScanState := ⟨[], [], ""⟩

/-- `DICOMSender::ScanFile`. -/
def ScanFile (path : String) (content : Option DcmInfo) (s : ScanState) : ScanState :=
  match content with
  | none => s
  | some d =>
    { instances := mapInsert naturalLess d.sopuid path s.instances
      grouping := mapsetAdd d.sopclassuid d.xfer s.grouping
      study_uid := d.studyuid }

mutual
/-- `DICOMSender::ScanDir`: nothing is done unless the path is a directory. -/
def ScanDir (env : Env) : DirEntry → List Event → ScanState → ScanState × List Event
  | .directory _ entries, h, s => ScanEntries env entries h s
  | .regularFile _ _, _, s => (s, [])
  | .other _, _, s => (s, [])
/-- The `for` loop of `ScanDir` over the remaining entries of a directory. -/
def ScanEntries (env : Env) : List DirEntry → List Event → ScanState → ScanState × List Event
  | [], _, s => (s, [])
  | e :: rest, h, s =>
    let c := IsCanceled env h .scanDir
    if c.1 then (s, c.2)
    else
      let r1 : ScanState × List Event :=
        match e with
        | .regularFile path content => (ScanFile path content s, [])
        | .directory path entries => ScanDir env (.directory path entries) (h ++ c.2) s
        | .other _ => (s, [])
      let r2 := ScanEntries env rest (h ++ c.2 ++ r1.2) r1.1
      (r2.1, c.2 ++ r1.2 ++ r2.2)
end

/-! ## The batch transmitter -/

/-- The constant `UID_LittleEndianExplicitTransferSyntax` of DCMTK. -/
def UID_LittleEndianExplicitTransferSyntax : String := "1.2.840.10008.1.2.1"

/-- The inner loop of `SendABatch` over the formats of one class: those that are
not the default one, in the order of the set. -/
def nonDefaultXfers : List String → List String
  | [] => []
  | x :: rest =>
    if x != UID_LittleEndianExplicitTransferSyntax then x :: nonDefaultXfers rest
    else nonDefaultXfers rest

/-- The loop "for every class" of `SendABatch`: the calls to
`scu.addPresentationContext`. -/
def proposeContexts : mapset → List Event
  | [] => []
  | (cls, xfers) :: rest =>
    let own := nonDefaultXfers xfers
    (if own.length > 0 then [Event.addPresentationContext cls own] else [])
      ++ [Event.addPresentationContext cls [UID_LittleEndianExplicitTransferSyntax]]
      ++ proposeContexts rest

/-- What the `while` loop over the pending instances leaves. -/
structure ItemsResult where
  aborted : Bool
  instances : naturalpathmap
  events : List Event
deriving DecidableEq, Repr

/-- The `while (itr != instances.end())` loop of `SendABatch`, from the iterator
position on: `aborted` is the `return 1` on `DUL_PEERABORTEDASSOCIATION`. -/
def sendItems (env : Env) : naturalpathmap → List Event → ItemsResult
  | [], _ => ⟨false, [], []⟩
  | (sopuid, path) :: rest, h =>
    let c := IsCanceled env h .batchItem
    if c.1 then ⟨false, (sopuid, path) :: rest, c.2⟩
    else
      let cond := env.sendSTORERequest (h ++ c.2) sopuid path
      let e := c.2 ++ [Event.sendSTORERequest sopuid path cond]
      match cond with
      | .good =>
        let r := sendItems env rest (h ++ e)
        ⟨r.aborted, r.instances, e ++ r.events⟩
      | .peerAborted => ⟨true, (sopuid, path) :: rest, e⟩
      | .otherError =>
        let r := sendItems env rest (h ++ e)
        ⟨r.aborted, (sopuid, path) :: r.instances, e ++ r.events⟩

/-- What `SendABatch` returns and leaves in `instances`. -/
structure BatchResult where
  ret : Int
  instances : naturalpathmap
  events : List Event
deriving DecidableEq, Repr

/-- `DICOMSender::SendABatch`.  The setters on the local `DcmSCU` (titles, host, port,
timeouts) call no collaborator and add no event; on `return 1` the association is
not released by this function. -/
def SendABatch (env : Env) (h : List Event) (grouping : mapset) (instances : naturalpathmap) :
    BatchResult :=
  let c := IsCanceled env h .batchEntry
  if c.1 then ⟨1, instances, c.2⟩
  else
    let e1 := c.2 ++ proposeContexts grouping
    let net := env.initNetwork (h ++ e1)
    let e2 := e1 ++ [Event.initNetwork net]
    if !net then ⟨1, instances, e2⟩
    else
      let neg := env.negotiateAssociation (h ++ e2)
      let e3 := e2 ++ [Event.negotiateAssociation neg]
      if !neg then ⟨1, instances, e3⟩
      else
        let r := sendItems env instances (h ++ e3)
        if r.aborted then ⟨1, r.instances, e3 ++ r.events⟩
        else ⟨0, r.instances, e3 ++ r.events ++ [Event.releaseAssociation]⟩

/-! ## The study send loop -/

/-- Conversion of a container size to the 32-bit `int` of `unsentcountbefore` and
`unsentcountafter`. -/
def toInt32 (n : Nat) : Int :=
  if n % 4294967296 < 2147483648 then ((n % 4294967296 : Nat) : Int)
  else ((n % 4294967296 : Nat) : Int) - 4294967296

/-- The sleep loop of `SendStudy`, with `sleeploop` still to go: sleep, decrement,
then look at the cancel flag. -/
def sleepLoop (env : Env) : Nat → List Event → List Event
  | 0, _ => []
  | n + 1, h =>
    let c := IsCanceled env (h ++ [Event.sleep 200]) .sleepLoop
    if c.1 then Event.sleep 200 :: c.2
    else Event.sleep 200 :: c.2 ++ sleepLoop env n (h ++ Event.sleep 200 :: c.2)

/-- Lines 112 to 118 of `SendStudy`: the counts and the batch send. -/
def attempt (env : Env) (h : List Event) (grouping : mapset) (instances : naturalpathmap) :
    BatchResult :=
  if toInt32 instances.length > 0 then SendABatch env h grouping instances
  else ⟨0, instances, []⟩

/-- The `if`/`else` on lines 121 to 142 of `SendStudy`: the new value of `retry`
and the events of the sleep loop. -/
def backoff (env : Env) (h : List Event) (unsentcountbefore unsentcountafter retry : Int) :
    Int × List Event :=
  if unsentcountafter > 0 ∧ unsentcountbefore = unsentcountafter ∧ retry < 10000 then
    (retry + 1, sleepLoop env (5 * 60 * 1) h)
  else (0, [])

/-- One pass through the body of the `do ... while` loop of `SendStudy` and its
condition: the locals after it, the events, and whether the loop goes on. -/
structure IterResult where
  instances : naturalpathmap
  unsentcountafter : Int
  retry : Int
  events : List Event
  again : Bool
deriving DecidableEq, Repr

/-- Lines 110 to 144 of `SendStudy`. -/
def iteration (env : Env) (grouping : mapset) (h : List Event) (instances : naturalpathmap)
    (retry : Int) : IterResult :=
  let unsentcountbefore := toInt32 instances.length
  let b := attempt env h grouping instances
  let unsentcountafter := toInt32 b.instances.length
  let w := backoff env (h ++ b.events) unsentcountbefore unsentcountafter retry
  let c := IsCanceled env (h ++ b.events ++ w.2) .loopCond
  ⟨b.instances, unsentcountafter, w.1, b.events ++ w.2 ++ c.2,
    !c.1 && decide (unsentcountafter > 0) && decide (w.1 < 10000)⟩

/-- The locals of `SendStudy` when the `do ... while` loop is left. -/
structure LoopResult where
  instances : naturalpathmap
  unsentcountafter : Int
  retry : Int
  events : List Event
deriving DecidableEq, Repr

/-- The `do ... while` loop of `SendStudy`; `fuel` bounds the number of
iterations, `none` when it does not suffice. -/
def sendLoop (env : Env) (grouping : mapset) :
    Nat → List Event → naturalpathmap → Int → Option LoopResult
  | 0, _, _, _ => none
  | fuel + 1, h, instances, retry =>
    let it := iteration env grouping h instances retry
    if it.again then
      match sendLoop env grouping fuel (h ++ it.events) it.instances it.retry with
      | none => none
      | some r => some { r with events := it.events ++ r.events }
    else some ⟨it.instances, it.unsentcountafter, it.retry, it.events⟩

/-- What a run of `SendStudy` leaves: its locals at the end and the events. -/
structure StudyResult where
  instances : naturalpathmap
  study_uid : String
  retry : Int
  events : List Event
deriving DecidableEq, Repr

/-- `DICOMSender::SendStudy`, on the study directory `path`. -/
def SendStudy (env : Env) (fuel : Nat) (path : DirEntry) : Option StudyResult :=
  let s := ScanDir env path [] ScanState.init
  match sendLoop env s.1.grouping fuel s.2 s.1.instances 0 with
  | none => none
  | some r =>
    some ⟨r.instances, s.1.study_uid, r.retry,
      s.2 ++ r.events ++
        (if r.unsentcountafter = 0 then [Event.setStudyCheck s.1.study_uid false] else [])⟩

/-! ## Reading a trace -/

/-- The instance identifiers of the `sendSTORERequest` calls of a trace, in order. -/
def sentIds : List Event → List String
  | [] => []
  | .sendSTORERequest sopuid _ _ :: rest => sopuid :: sentIds rest
  | _ :: rest => sentIds rest

/-- The acknowledged `sendSTORERequest` calls of a trace. -/
def Event.isAck : Event → Bool
  | .sendSTORERequest _ _ .good => true
  | _ => false

/-- Calls to the transport (`DcmSCU`). -/
def Event.isTransport : Event → Bool
  | .addPresentationContext _ _ => true
  | .initNetwork _ => true
  | .negotiateAssociation _ => true
  | .sendSTORERequest _ _ _ => true
  | .releaseAssociation => true
  | _ => false

/-- Sleep increments of the backoff wait. -/
def Event.isSleep : Event → Bool
  | .sleep _ => true
  | _ => false

/-- Calls to `PatientData::SetStudyCheck`. -/
def Event.isSetStudyCheck : Event → Bool
  | .setStudyCheck _ _ => true
  | _ => false

/-- Entries of `SendABatch`: it calls `IsCanceled()` first, once. -/
def Event.isBatchEntry : Event → Bool
  | .isCanceled .batchEntry _ => true
  | _ => false

/-- Evaluations of the `while` condition of `SendStudy`, one per iteration. -/
def Event.isLoopCond : Event → Bool
  | .isCanceled .loopCond _ => true
  | _ => false

/-- The proposed presentation contexts of a trace, in order. -/
def proposedContexts : List Event → List (String × List String)
  | [] => []
  | .addPresentationContext cls xfers :: rest => (cls, xfers) :: proposedContexts rest
  | _ :: rest => proposedContexts rest

/-! ## Predicates used in the statements -/

/-- The events `SendABatch` adds before the item loop when the session opens. -/
def IsSetupEvent (e : Event) : Prop :=
  e = Event.isCanceled .batchEntry false ∨ (∃ c x, e = Event.addPresentationContext c x)
    ∨ e = Event.initNetwork true ∨ e = Event.negotiateAssociation true

/-- Events that `SendABatch` can add. -/
def Event.isBatchEvent : Event → Bool
  | .isCanceled .batchEntry _ => true
  | .isCanceled .batchItem _ => true
  | .addPresentationContext _ _ => true
  | .initNetwork _ => true
  | .negotiateAssociation _ => true
  | .sendSTORERequest _ _ _ => true
  | .releaseAssociation => true
  | _ => false

/-- Events that the sleep loop can add. -/
def Event.isSleepEvent : Event → Bool
  | .sleep _ => true
  | .isCanceled .sleepLoop _ => true
  | _ => false

/-- A class identifier and a format identifier are paired in a grouping. -/
def InGrouping (g : mapset) (cls xfer : String) : Prop :=
  ∃ xfers, (cls, xfers) ∈ g ∧ xfer ∈ xfers

/-- The entries of a grouping are in ascending order of class identifier (so each
class has one entry) and each set is in ascending order (so its formats are
distinct). -/
def GroupingSorted (g : mapset) : Prop :=
  g.Pairwise (fun a b => stringLess a.1 b.1 = true)
    ∧ ∀ e ∈ g, e.2.Pairwise (fun a b => stringLess a b = true)

/-- A directory listing of regular files that all load: the entries for a list of
(location, values read) pairs. -/
def parsedFiles (items : List (String × DcmInfo)) : List DirEntry :=
  items.map (fun it => DirEntry.regularFile it.1 (some it.2))

/-- The presentation contexts for one class: the formats of the class other than the
default one, if there are any, then the default format alone. -/
def contextsOfClass (e : String × List String) : List (String × List String) :=
  (if e.2.filter (fun x => x != UID_LittleEndianExplicitTransferSyntax) = [] then []
    else [(e.1, e.2.filter (fun x => x != UID_LittleEndianExplicitTransferSyntax))])
    ++ [(e.1, [UID_LittleEndianExplicitTransferSyntax])]

/-- Two identifiers that the natural order does not tell apart: neither is less than
the other, so they are the same key of a `naturalpathmap`. -/
def naturalEquiv (a b : String) : Prop :=
  naturalLess a b = false ∧ naturalLess b a = false

mutual
/-- The calls of `ScanFile` that `ScanDir` makes on a path, in order, each with the
location and what loading the file gives, and the polls of the cancel flag. -/
def scanTrace (env : Env) : DirEntry → List Event → List (String × Option DcmInfo) × List Event
  | .directory _ entries, h => scanTraceEntries env entries h
  | .regularFile _ _, _ => ([], [])
  | .other _, _ => ([], [])
/-- The calls of `ScanFile` in the `for` loop of `ScanDir` over the remaining entries. -/
def scanTraceEntries (env : Env) :
    List DirEntry → List Event → List (String × Option DcmInfo) × List Event
  | [], _ => ([], [])
  | e :: rest, h =>
    let c := IsCanceled env h .scanDir
    if c.1 then ([], c.2)
    else
      let r1 : List (String × Option DcmInfo) × List Event :=
        match e with
        | .regularFile path content => ([(path, content)], [])
        | .directory path entries => scanTrace env (.directory path entries) (h ++ c.2)
        | .other _ => ([], [])
      let r2 := scanTraceEntries env rest (h ++ c.2 ++ r1.2)
      (r1.1 ++ r2.1, c.2 ++ r1.2 ++ r2.2)
end

/-- In a sequence of `ScanFile` calls, `path` is the first file that loads with an
identifier equivalent to `sopuid`, and `sopuid` is the identifier it carries. -/
def FirstLoaded (calls : List (String × Option DcmInfo)) (sopuid path : String) : Prop :=
  ∃ l1 d l2, calls = l1 ++ (path, some d) :: l2 ∧ d.sopuid = sopuid
    ∧ ∀ x ∈ l1, ∀ d1, x.2 = some d1 → ¬ naturalEquiv d1.sopuid sopuid

/-! ## Concrete studies and environments -/

/-- A regular file that loads, with the four values read from it. -/
def dicomFile (path study_uid sopuid sopclassuid xfer : String) : DirEntry :=
  .regularFile path (some ⟨study_uid, sopuid, sopclassuid, xfer⟩)

/-- A study directory with one instance. -/
def studyOne : DirEntry :=
  .directory "study" [dicomFile "study/a.dcm" "1.2.3" "1.2.3.1" "1.2.840.10008.5.1.4.1.1.2"
    "1.2.840.10008.1.2.1"]

/-- A study directory whose instance identifiers are "3", "10" and "2", in the order
the directory iterator yields the files. -/
def studyThree : DirEntry :=
  .directory "study"
    [dicomFile "study/x.dcm" "1.2.3" "3" "1.2.840.10008.5.1.4.1.1.2" "1.2.840.10008.1.2.1",
     dicomFile "study/y.dcm" "1.2.3" "10" "1.2.840.10008.5.1.4.1.1.2" "1.2.840.10008.1.2.1",
     dicomFile "study/z.dcm" "1.2.3" "2" "1.2.840.10008.5.1.4.1.1.2" "1.2.840.10008.1.2.1"]

/-- A study directory with two files that carry the same instance identifier. -/
def studyDuplicate : DirEntry :=
  .directory "study"
    [dicomFile "study/a.dcm" "1.2.3" "1.2.3.1" "1.2.840.10008.5.1.4.1.1.2"
      "1.2.840.10008.1.2.1",
     dicomFile "study/b.dcm" "1.2.3" "1.2.3.1" "1.2.840.10008.5.1.4.1.1.2"
      "1.2.840.10008.1.2.1"]

/-- A study directory with three files that carry the same instance identifier. -/
def studyTriple : DirEntry :=
  .directory "study"
    [dicomFile "study/a.dcm" "1.2.3" "1.2.3.1" "1.2.840.10008.5.1.4.1.1.2"
      "1.2.840.10008.1.2.1",
     dicomFile "study/b.dcm" "1.2.3" "1.2.3.1" "1.2.840.10008.5.1.4.1.1.2"
      "1.2.840.10008.1.2.1",
     dicomFile "study/c.dcm" "1.2.3" "1.2.3.1" "1.2.840.10008.5.1.4.1.1.2"
      "1.2.840.10008.1.2.1"]

/-- A study directory where a file with the identifier "1.2.3.01" comes before two
files with the identifier "1.2.3.1", which the natural order does not tell apart
from it. -/
def studyLeadingZero : DirEntry :=
  .directory "study"
    [dicomFile "study/a.dcm" "1.2.3" "1.2.3.01" "1.2.840.10008.5.1.4.1.1.2"
      "1.2.840.10008.1.2.1",
     dicomFile "study/b.dcm" "1.2.3" "1.2.3.1" "1.2.840.10008.5.1.4.1.1.2"
      "1.2.840.10008.1.2.1",
     dicomFile "study/c.dcm" "1.2.3" "1.2.3.1" "1.2.840.10008.5.1.4.1.1.2"
      "1.2.840.10008.1.2.1"]

/-- A study directory with nothing to send: a file that does not load and an empty
subdirectory. -/
def studyNothing : DirEntry :=
  .directory "study" [.regularFile "study/notes.txt" none, .directory "study/sub" []]

/-- Files of classes A, A, B with formats X, Y, X, where X is the default format. -/
def groupingItems : List (String × DcmInfo) :=
  [("study/1.dcm", ⟨"1.2.3", "1", "A", UID_LittleEndianExplicitTransferSyntax⟩),
   ("study/2.dcm", ⟨"1.2.3", "2", "A", "Y"⟩),
   ("study/3.dcm", ⟨"1.2.3", "3", "B", UID_LittleEndianExplicitTransferSyntax⟩)]

/-- The run of `SendStudy` on `studyThree` when every send is acknowledged. -/
def runThree : StudyResult :=
  ⟨[], "1.2.3", 0,
    [Event.isCanceled .scanDir false, Event.isCanceled .scanDir false,
      Event.isCanceled .scanDir false, Event.isCanceled .batchEntry false,
      Event.addPresentationContext "1.2.840.10008.5.1.4.1.1.2" ["1.2.840.10008.1.2.1"],
      Event.initNetwork true, Event.negotiateAssociation true,
      Event.isCanceled .batchItem false,
      Event.sendSTORERequest "2" "study/z.dcm" .good,
      Event.isCanceled .batchItem false,
      Event.sendSTORERequest "3" "study/x.dcm" .good,
      Event.isCanceled .batchItem false,
      Event.sendSTORERequest "10" "study/y.dcm" .good,
      Event.releaseAssociation, Event.isCanceled .loopCond false,
      Event.setStudyCheck "1.2.3" false]⟩

/-- A pending set of three instances. -/
def threeItems : naturalpathmap := [("1", "study/a.dcm"), ("2", "study/b.dcm"), ("3", "study/c.dcm")]

/-- Nothing is cancelled, the session opens, every send is acknowledged. -/
def envAllGood : Env :=
  ⟨fun _ => false, fun _ => true, fun _ => true, fun _ _ _ => .good⟩

/-- Nothing is cancelled, the session opens, no send is ever acknowledged. -/
def envNoAck : Env :=
  ⟨fun _ => false, fun _ => true, fun _ => true, fun _ _ _ => .otherError⟩

/-- Nothing is cancelled, the session opens, the peer aborts on instance "2" and
acknowledges the others. -/
def envAbortSecond : Env :=
  ⟨fun _ => false, fun _ => true, fun _ => true,
    fun _ sopuid _ => if sopuid = "2" then .peerAborted else .good⟩

/-- The session opens, no send is acknowledged, and the cancel flag is set during
the first sleep increment. -/
def envStall : Env :=
  ⟨fun h => decide (Event.sleep 200 ∈ h), fun _ => true, fun _ => true,
    fun _ _ _ => .otherError⟩

/-- The cancel flag is set from the start and never cleared. -/
def envCancelled : Env :=
  ⟨fun _ => true, fun _ => true, fun _ => true, fun _ _ _ => .good⟩

/-- The cancel flag is set once the session has been negotiated, and stays set. -/
def envCancelMidBatch : Env :=
  ⟨fun h => decide (Event.negotiateAssociation true ∈ h), fun _ => true, fun _ => true,
    fun _ _ _ => .good⟩

/-! ## Facts about the item loop -/

theorem sendItems_cancel (env : Env) (k p : String) (rest : naturalpathmap) (h : List Event)
    (hc : env.cancelEvent h = true) :
    sendItems env ((k, p) :: rest) h
      = ⟨false, (k, p) :: rest, [Event.isCanceled .batchItem true]⟩ := by
  simp [sendItems, IsCanceled, hc]

theorem sendItems_good (env : Env) (k p : String) (rest : naturalpathmap) (h : List Event)
    (hc : env.cancelEvent h = false)
    (hs : env.sendSTORERequest (h ++ [Event.isCanceled .batchItem false]) k p = .good) :
    sendItems env ((k, p) :: rest) h
      = ⟨(sendItems env rest
            (h ++ [Event.isCanceled .batchItem false, Event.sendSTORERequest k p .good])).aborted,
          (sendItems env rest
            (h ++ [Event.isCanceled .batchItem false, Event.sendSTORERequest k p .good])).instances,
          Event.isCanceled .batchItem false :: Event.sendSTORERequest k p .good ::
            (sendItems env rest
              (h ++ [Event.isCanceled .batchItem false,
                Event.sendSTORERequest k p .good])).events⟩ := by
  simp [sendItems, IsCanceled, hc, hs]

theorem sendItems_abort (env : Env) (k p : String) (rest : naturalpathmap) (h : List Event)
    (hc : env.cancelEvent h = false)
    (hs : env.sendSTORERequest (h ++ [Event.isCanceled .batchItem false]) k p = .peerAborted) :
    sendItems env ((k, p) :: rest) h
      = ⟨true, (k, p) :: rest,
          [Event.isCanceled .batchItem false, Event.sendSTORERequest k p .peerAborted]⟩ := by
  simp [sendItems, IsCanceled, hc, hs]

theorem sendItems_other (env : Env) (k p : String) (rest : naturalpathmap) (h : List Event)
    (hc : env.cancelEvent h = false)
    (hs : env.sendSTORERequest (h ++ [Event.isCanceled .batchItem false]) k p = .otherError) :
    sendItems env ((k, p) :: rest) h
      = ⟨(sendItems env rest
            (h ++ [Event.isCanceled .batchItem false,
              Event.sendSTORERequest k p .otherError])).aborted,
          (k, p) :: (sendItems env rest
            (h ++ [Event.isCanceled .batchItem false,
              Event.sendSTORERequest k p .otherError])).instances,
          Event.isCanceled .batchItem false :: Event.sendSTORERequest k p .otherError ::
            (sendItems env rest
              (h ++ [Event.isCanceled .batchItem false,
                Event.sendSTORERequest k p .otherError])).events⟩ := by
  simp [sendItems, IsCanceled, hc, hs]

theorem sendItems_sublist (env : Env) :
    ∀ (l : naturalpathmap) (h : List Event), (sendItems env l h).instances.Sublist l := by
  intro l
  induction l with
  | nil => intro h; simp [sendItems]
  | cons a rest ih =>
    intro h
    obtain ⟨k, p⟩ := a
    cases hc : env.cancelEvent h with
    | true => rw [sendItems_cancel env k p rest h hc]
    | false =>
      cases hs : env.sendSTORERequest (h ++ [Event.isCanceled .batchItem false]) k p with
      | good => rw [sendItems_good env k p rest h hc hs]; exact (ih _).cons _
      | peerAborted => rw [sendItems_abort env k p rest h hc hs]
      | otherError => rw [sendItems_other env k p rest h hc hs]; exact (ih _).cons₂ _

theorem sendItems_events_mem (env : Env) :
    ∀ (l : naturalpathmap) (h : List Event) (k p : String) (c : StoreCond),
      Event.sendSTORERequest k p c ∈ (sendItems env l h).events → (k, p) ∈ l := by
  intro l
  induction l with
  | nil => intro h k p c; simp [sendItems]
  | cons a rest ih =>
    intro h k p c
    obtain ⟨k1, p1⟩ := a
    cases hc : env.cancelEvent h with
    | true => rw [sendItems_cancel env k1 p1 rest h hc]; simp
    | false =>
      cases hs : env.sendSTORERequest (h ++ [Event.isCanceled .batchItem false]) k1 p1 with
      | good =>
        rw [sendItems_good env k1 p1 rest h hc hs]
        intro hm
        simp only [List.mem_cons, reduceCtorEq, false_or, Event.sendSTORERequest.injEq] at hm
        rcases hm with ⟨rfl, rfl, _⟩ | hm
        · simp
        · exact List.mem_cons_of_mem _ (ih _ _ _ _ hm)
      | peerAborted =>
        rw [sendItems_abort env k1 p1 rest h hc hs]
        intro hm
        simp only [List.mem_cons, reduceCtorEq, false_or, Event.sendSTORERequest.injEq,
          List.not_mem_nil, or_false] at hm
        rcases hm with ⟨rfl, rfl, _⟩
        simp
      | otherError =>
        rw [sendItems_other env k1 p1 rest h hc hs]
        intro hm
        simp only [List.mem_cons, reduceCtorEq, false_or, Event.sendSTORERequest.injEq] at hm
        rcases hm with ⟨rfl, rfl, _⟩ | hm
        · simp
        · exact List.mem_cons_of_mem _ (ih _ _ _ _ hm)

theorem sendItems_filter (env : Env) :
    ∀ (l : naturalpathmap) (h : List Event), l.Nodup →
      (sendItems env l h).instances =
        l.filter (fun x =>
          decide (Event.sendSTORERequest x.1 x.2 .good ∉ (sendItems env l h).events)) := by
  intro l
  induction l with
  | nil => intro h _; simp [sendItems]
  | cons a rest ih =>
    intro h hnd
    obtain ⟨k, p⟩ := a
    have hnot : (k, p) ∉ rest := (List.nodup_cons.mp hnd).1
    have hrest : rest.Nodup := (List.nodup_cons.mp hnd).2
    cases hc : env.cancelEvent h with
    | true =>
      rw [sendItems_cancel env k p rest h hc]
      symm
      apply List.filter_eq_self.mpr
      intro x _
      simp
    | false =>
      cases hs : env.sendSTORERequest (h ++ [Event.isCanceled .batchItem false]) k p with
      | good =>
        rw [sendItems_good env k p rest h hc hs]
        simp only
        rw [ih _ hrest, List.filter_cons_of_neg (by simp)]
        apply List.filter_congr
        intro x hx
        have hne : ¬ (x.1 = k ∧ x.2 = p) := by
          rintro ⟨h1, h2⟩
          exact hnot (by rw [← h1, ← h2]; exact hx)
        simp [hne]
      | peerAborted =>
        rw [sendItems_abort env k p rest h hc hs]
        symm
        apply List.filter_eq_self.mpr
        intro x _
        simp
      | otherError =>
        rw [sendItems_other env k p rest h hc hs]
        simp only
        have hk : Event.sendSTORERequest k p StoreCond.good ∉
            (sendItems env rest
              (h ++ [Event.isCanceled Site.batchItem false,
                Event.sendSTORERequest k p StoreCond.otherError])).events :=
          fun hm => hnot (sendItems_events_mem env _ _ _ _ _ hm)
        rw [List.filter_cons_of_pos (by simpa using hk)]
        congr 1
        rw [ih _ hrest]
        apply List.filter_congr
        intro x hx
        simp

theorem sendItems_count (env : Env) :
    ∀ (l : naturalpathmap) (h : List Event),
      (sendItems env l h).instances.length
        + ((sendItems env l h).events.filter Event.isAck).length = l.length := by
  intro l
  induction l with
  | nil => intro h; simp [sendItems]
  | cons a rest ih =>
    intro h
    obtain ⟨k, p⟩ := a
    cases hc : env.cancelEvent h with
    | true => rw [sendItems_cancel env k p rest h hc]; simp [Event.isAck]
    | false =>
      cases hs : env.sendSTORERequest (h ++ [Event.isCanceled .batchItem false]) k p with
      | good =>
        rw [sendItems_good env k p rest h hc hs]
        have := ih (h ++ [Event.isCanceled .batchItem false, Event.sendSTORERequest k p .good])
        simp [Event.isAck, List.filter] at this ⊢
        omega
      | peerAborted =>
        rw [sendItems_abort env k p rest h hc hs]; simp [Event.isAck, List.filter]
      | otherError =>
        rw [sendItems_other env k p rest h hc hs]
        have := ih (h ++ [Event.isCanceled .batchItem false,
          Event.sendSTORERequest k p .otherError])
        simp [Event.isAck, List.filter] at this ⊢
        omega

/-! ## Facts about `SendABatch` -/

theorem proposeContexts_mem (g : mapset) :
    ∀ e ∈ proposeContexts g, ∃ c x, e = Event.addPresentationContext c x := by
  induction g with
  | nil => simp [proposeContexts]
  | cons a rest ih =>
    obtain ⟨c, x⟩ := a
    intro e he
    simp only [proposeContexts, List.mem_append, List.mem_singleton] at he
    rcases he with (he | he) | he
    · split at he
      · simp only [List.mem_singleton] at he
        exact ⟨_, _, he⟩
      · simp at he
    · exact ⟨_, _, he⟩
    · exact ih e he

theorem SendABatch_shape (env : Env) (h : List Event) (g : mapset) (inst : naturalpathmap) :
    ((SendABatch env h g inst).instances = inst ∧ (SendABatch env h g inst).ret = 1 ∧
      ∃ pre last, (SendABatch env h g inst).events = pre ++ [last] ∧
        (∀ e ∈ pre, IsSetupEvent e) ∧
        (last = Event.isCanceled .batchEntry true ∨ last = Event.initNetwork false
          ∨ last = Event.negotiateAssociation false)) ∨
    (∃ pre post h1, (∀ e ∈ pre, IsSetupEvent e) ∧
      (sendItems env inst h1).aborted = false ∧ post = [Event.releaseAssociation] ∧
      (SendABatch env h g inst).events = pre ++ (sendItems env inst h1).events ++ post ∧
      (SendABatch env h g inst).instances = (sendItems env inst h1).instances ∧
      (SendABatch env h g inst).ret = 0) ∨
    (∃ pre h1, (∀ e ∈ pre, IsSetupEvent e) ∧
      (sendItems env inst h1).aborted = true ∧
      (SendABatch env h g inst).events = pre ++ (sendItems env inst h1).events ∧
      (SendABatch env h g inst).instances = (sendItems env inst h1).instances ∧
      (SendABatch env h g inst).ret = 1) := by
  have hpc : ∀ e ∈ proposeContexts g, IsSetupEvent e := fun e he =>
    Or.inr (Or.inl (proposeContexts_mem g e he))
  cases hc : env.cancelEvent h with
  | true =>
    left
    simp only [SendABatch, IsCanceled, hc, if_true, true_and]
    exact ⟨[], _, rfl, by simp, Or.inl rfl⟩
  | false =>
    cases hn : env.initNetwork
        (h ++ ([Event.isCanceled .batchEntry false] ++ proposeContexts g)) with
    | false =>
      left
      simp only [SendABatch, IsCanceled, hc, hn, Bool.false_eq_true, if_false, Bool.not_false,
        if_true, true_and]
      refine ⟨_, _, rfl, ?_, Or.inr (Or.inl rfl)⟩
      intro e he
      simp only [List.mem_append, List.mem_singleton] at he
      rcases he with rfl | he
      · exact Or.inl rfl
      · exact hpc e he
    | true =>
      have hsetup2 : ∀ e ∈ [Event.isCanceled .batchEntry false] ++ proposeContexts g
          ++ [Event.initNetwork true], IsSetupEvent e := by
        intro e he
        simp only [List.mem_append, List.mem_singleton] at he
        rcases he with (rfl | he) | rfl
        · exact Or.inl rfl
        · exact hpc e he
        · exact Or.inr (Or.inr (Or.inl rfl))
      cases hg : env.negotiateAssociation
          (h ++ ([Event.isCanceled .batchEntry false] ++ proposeContexts g
            ++ [Event.initNetwork true])) with
      | false =>
        left
        simp only [SendABatch, IsCanceled, hc, hn, hg, Bool.false_eq_true, if_false,
          Bool.not_false, Bool.not_true, if_true, true_and]
        exact ⟨_, _, rfl, hsetup2, Or.inr (Or.inr rfl)⟩
      | true =>
        have hsetup3 : ∀ e ∈ [Event.isCanceled .batchEntry false] ++ proposeContexts g
            ++ [Event.initNetwork true] ++ [Event.negotiateAssociation true],
            IsSetupEvent e := by
          intro e he
          rw [List.mem_append, List.mem_singleton] at he
          rcases he with he | rfl
          · exact hsetup2 e he
          · exact Or.inr (Or.inr (Or.inr rfl))
        right
        cases ha : (sendItems env inst
          (h ++ ([Event.isCanceled .batchEntry false] ++ proposeContexts g
            ++ [Event.initNetwork true] ++ [Event.negotiateAssociation true]))).aborted with
        | false =>
          left
          refine ⟨_, _, _, hsetup3, ha, rfl, ?_, ?_, ?_⟩ <;>
            simp only [SendABatch, IsCanceled, hc, hn, hg, ha, Bool.false_eq_true, if_false,
              Bool.not_true]
        | true =>
          right
          refine ⟨_, _, hsetup3, ha, ?_, ?_, ?_⟩ <;>
            simp only [SendABatch, IsCanceled, hc, hn, hg, ha, Bool.false_eq_true, if_false,
              Bool.not_true, if_true]

theorem IsSetupEvent.ne_store {e : Event} (he : IsSetupEvent e) (k p : String) (c : StoreCond) :
    e ≠ Event.sendSTORERequest k p c := by
  rcases he with rfl | ⟨_, _, rfl⟩ | rfl | rfl <;> simp

theorem sendItems_failed_mem (env : Env) :
    ∀ (l : naturalpathmap) (h : List Event) (k p : String) (c : StoreCond), c ≠ .good →
      Event.sendSTORERequest k p c ∈ (sendItems env l h).events →
      (k, p) ∈ (sendItems env l h).instances := by
  intro l
  induction l with
  | nil => intro h k p c _; simp [sendItems]
  | cons a rest ih =>
    intro h k p c hne
    obtain ⟨k1, p1⟩ := a
    cases hc : env.cancelEvent h with
    | true => rw [sendItems_cancel env k1 p1 rest h hc]; simp
    | false =>
      cases hs : env.sendSTORERequest (h ++ [Event.isCanceled .batchItem false]) k1 p1 with
      | good =>
        rw [sendItems_good env k1 p1 rest h hc hs]
        intro hm
        simp only [List.mem_cons, reduceCtorEq, false_or, Event.sendSTORERequest.injEq] at hm
        rcases hm with ⟨_, _, rfl⟩ | hm
        · exact absurd rfl hne
        · exact ih _ _ _ _ hne hm
      | peerAborted =>
        rw [sendItems_abort env k1 p1 rest h hc hs]
        intro hm
        simp only [List.mem_cons, reduceCtorEq, false_or, Event.sendSTORERequest.injEq,
          List.not_mem_nil, or_false] at hm
        rcases hm with ⟨rfl, rfl, _⟩
        simp
      | otherError =>
        rw [sendItems_other env k1 p1 rest h hc hs]
        intro hm
        simp only [List.mem_cons, reduceCtorEq, false_or, Event.sendSTORERequest.injEq] at hm
        rcases hm with ⟨rfl, rfl, _⟩ | hm
        · simp
        · exact List.mem_cons_of_mem _ (ih _ _ _ _ hne hm)

/-! ## The orders and the sorted containers -/

theorem lexLess_irrefl {α : Type} (lt : α → α → Bool) (hirr : ∀ a, lt a a = false) :
    ∀ l : List α, lexLess lt l l = false := by
  intro l
  induction l with
  | nil => rfl
  | cons a as ih => simp [lexLess, hirr, ih]

theorem lexLess_trans {α : Type} (lt : α → α → Bool)
    (htr : ∀ a b c, lt a b = true → lt b c = true → lt a c = true)
    (htot : ∀ a b, lt a b = false → lt b a = false → a = b) :
    ∀ x y z : List α, lexLess lt x y = true → lexLess lt y z = true → lexLess lt x z = true := by
  intro x
  induction x with
  | nil =>
    intro y z hxy hyz
    cases y with
    | nil => simp [lexLess] at hxy
    | cons b bs =>
      cases z with
      | nil => simp [lexLess] at hyz
      | cons c cs => simp [lexLess]
  | cons a as ih =>
    intro y z hxy hyz
    cases y with
    | nil => simp [lexLess] at hxy
    | cons b bs =>
      cases z with
      | nil => simp [lexLess] at hyz
      | cons c cs =>
        simp only [lexLess, Bool.or_eq_true, Bool.and_eq_true, Bool.not_eq_true'] at hxy hyz ⊢
        rcases hxy with hab | ⟨hba, hxs⟩
        · rcases hyz with hbc | ⟨hcb, _⟩
          · exact Or.inl (htr a b c hab hbc)
          · cases hbc : lt b c with
            | true => exact Or.inl (htr a b c hab hbc)
            | false =>
              have := htot b c hbc hcb
              subst this
              exact Or.inl hab
        · cases hab : lt a b with
          | true =>
            rcases hyz with hbc | ⟨hcb, _⟩
            · exact Or.inl (htr a b c hab hbc)
            · cases hbc : lt b c with
              | true => exact Or.inl (htr a b c hab hbc)
              | false =>
                have := htot b c hbc hcb
                subst this
                exact Or.inl hab
          | false =>
            have := htot a b hab hba
            subst this
            rcases hyz with hbc | ⟨hcb, hys⟩
            · exact Or.inl hbc
            · exact Or.inr ⟨hcb, ih bs cs hxs hys⟩

theorem lexLess_total {α : Type} (lt : α → α → Bool)
    (htot : ∀ a b, lt a b = false → lt b a = false → a = b) :
    ∀ x y : List α, lexLess lt x y = false → lexLess lt y x = false → x = y := by
  intro x
  induction x with
  | nil =>
    intro y hxy _
    cases y with
    | nil => rfl
    | cons b bs => simp [lexLess] at hxy
  | cons a as ih =>
    intro y hxy hyx
    cases y with
    | nil => simp [lexLess] at hyx
    | cons b bs =>
      simp only [lexLess, Bool.or_eq_false_iff, Bool.and_eq_false_iff, Bool.not_eq_false',
        Bool.not_eq_eq_eq_not, Bool.not_true] at hxy hyx
      have hab := htot a b hxy.1 hyx.1
      subst hab
      have h1 : lexLess lt as bs = false := by
        rcases hxy.2 with h | h
        · rw [hyx.1] at h; cases h
        · exact h
      have h2 : lexLess lt bs as = false := by
        rcases hyx.2 with h | h
        · rw [hxy.1] at h; cases h
        · exact h
      rw [ih bs h1 h2]

theorem chunkLess_irrefl (a : Nat × Nat) : chunkLess a a = false := by
  simp [chunkLess]

theorem chunkLess_trans (a b c : Nat × Nat) (h1 : chunkLess a b = true)
    (h2 : chunkLess b c = true) : chunkLess a c = true := by
  simp only [chunkLess, Bool.or_eq_true, Bool.and_eq_true, decide_eq_true_eq] at h1 h2 ⊢
  omega

theorem chunkLess_total (a b : Nat × Nat) (h1 : chunkLess a b = false)
    (h2 : chunkLess b a = false) : a = b := by
  simp only [chunkLess, Bool.or_eq_false_iff, Bool.and_eq_false_iff, decide_eq_false_iff_not]
    at h1 h2
  apply Prod.ext <;> omega

theorem naturalLess_irrefl (a : String) : naturalLess a a = false :=
  lexLess_irrefl chunkLess chunkLess_irrefl _

theorem naturalLess_trans (a b c : String) (h1 : naturalLess a b = true)
    (h2 : naturalLess b c = true) : naturalLess a c = true :=
  lexLess_trans chunkLess chunkLess_trans chunkLess_total _ _ _ h1 h2

theorem mapInsert_mem {K V : Type} (lt : K → K → Bool) (k : K) (v : V) :
    ∀ (l : List (K × V)) (x : K × V), x ∈ mapInsert lt k v l → x = (k, v) ∨ x ∈ l := by
  intro l
  induction l with
  | nil => intro x hx; simpa [mapInsert] using hx
  | cons a rest ih =>
    intro x hx
    obtain ⟨k1, v1⟩ := a
    simp only [mapInsert] at hx
    split at hx
    · simpa using hx
    · split at hx
      · rcases List.mem_cons.mp hx with rfl | hx
        · simp
        · rcases ih x hx with rfl | hx
          · simp
          · exact Or.inr (List.mem_cons_of_mem _ hx)
      · exact Or.inr hx

theorem mapInsert_pairwise {K V : Type} (lt : K → K → Bool)
    (htr : ∀ a b c, lt a b = true → lt b c = true → lt a c = true) (k : K) (v : V) :
    ∀ l : List (K × V), l.Pairwise (fun a b => lt a.1 b.1 = true) →
      (mapInsert lt k v l).Pairwise (fun a b => lt a.1 b.1 = true) := by
  intro l
  induction l with
  | nil => intro _; simp [mapInsert]
  | cons a rest ih =>
    intro hl
    obtain ⟨k1, v1⟩ := a
    have hhead := (List.pairwise_cons.mp hl).1
    have htail := (List.pairwise_cons.mp hl).2
    simp only [mapInsert]
    split
    · rename_i hlt
      refine List.pairwise_cons.mpr ⟨?_, hl⟩
      intro x hx
      rcases List.mem_cons.mp hx with rfl | hx
      · exact hlt
      · exact htr _ _ _ hlt (hhead x hx)
    · split
      · rename_i hlt
        refine List.pairwise_cons.mpr ⟨?_, ih htail⟩
        intro x hx
        rcases mapInsert_mem lt k v rest x hx with rfl | hx
        · exact hlt
        · exact hhead x hx
      · exact hl

theorem mapInsert_again {K V : Type} (lt : K → K → Bool) (hirr : ∀ a, lt a a = false)
    (k : K) (v w : V) :
    ∀ l : List (K × V), mapInsert lt k w (mapInsert lt k v l) = mapInsert lt k v l := by
  intro l
  induction l with
  | nil => simp [mapInsert, hirr]
  | cons a rest ih =>
    obtain ⟨k1, v1⟩ := a
    by_cases h1 : lt k k1 = true
    · simp [mapInsert, h1, hirr]
    · by_cases h2 : lt k1 k = true
      · simp [mapInsert, h1, h2, ih]
      · simp [mapInsert, h1, h2]

theorem mapInsert_fresh {K V : Type} (lt : K → K → Bool) (k : K) (v : V) :
    ∀ l : List (K × V), (∀ x ∈ l, lt k x.1 = true ∨ lt x.1 k = true) →
      ∃ l1 l2, l = l1 ++ l2 ∧ mapInsert lt k v l = l1 ++ (k, v) :: l2 := by
  intro l
  induction l with
  | nil => intro _; exact ⟨[], [], rfl, rfl⟩
  | cons a rest ih =>
    intro hl
    obtain ⟨k1, v1⟩ := a
    by_cases h1 : lt k k1 = true
    · exact ⟨[], (k1, v1) :: rest, rfl, by simp [mapInsert, h1]⟩
    · have h2 : lt k1 k = true := by
        rcases hl (k1, v1) (List.mem_cons_self _ _) with h | h
        · exact absurd h h1
        · exact h
      obtain ⟨l1, l2, hl12, hins⟩ := ih (fun x hx => hl x (List.mem_cons_of_mem _ hx))
      exact ⟨(k1, v1) :: l1, l2, by rw [hl12]; rfl, by simp [mapInsert, h1, h2, hins]⟩

mutual
theorem ScanDir_invariant (env : Env) (P : ScanState → Prop)
    (hP : ∀ p c s, P s → P (ScanFile p c s)) :
    ∀ (e : DirEntry) (h : List Event) (s : ScanState), P s → P (ScanDir env e h s).1
  | .directory _ entries, h, s, hs => by
    rw [ScanDir]
    exact ScanEntries_invariant env P hP entries h s hs
  | .regularFile _ _, _, s, hs => by rw [ScanDir]; exact hs
  | .other _, _, s, hs => by rw [ScanDir]; exact hs
theorem ScanEntries_invariant (env : Env) (P : ScanState → Prop)
    (hP : ∀ p c s, P s → P (ScanFile p c s)) :
    ∀ (es : List DirEntry) (h : List Event) (s : ScanState), P s → P (ScanEntries env es h s).1
  | [], _, s, hs => by rw [ScanEntries]; exact hs
  | .regularFile path content :: rest, h, s, hs => by
    simp only [ScanEntries]
    split
    · exact hs
    · exact ScanEntries_invariant env P hP rest _ _ (hP _ _ _ hs)
  | .directory path entries :: rest, h, s, hs => by
    simp only [ScanEntries]
    split
    · exact hs
    · exact ScanEntries_invariant env P hP rest _ _
        (ScanDir_invariant env P hP (.directory path entries) _ s hs)
  | .other _ :: rest, h, s, hs => by
    simp only [ScanEntries]
    split
    · exact hs
    · exact ScanEntries_invariant env P hP rest _ _ hs
end

theorem ScanDir_sorted (env : Env) (e : DirEntry) (h : List Event) :
    (ScanDir env e h ScanState.init).1.instances.Pairwise
      (fun a b => naturalLess a.1 b.1 = true) := by
  apply ScanDir_invariant env
    (fun s => s.instances.Pairwise (fun a b => naturalLess a.1 b.1 = true))
  · intro p c s hs
    cases c with
    | none => exact hs
    | some d => exact mapInsert_pairwise naturalLess naturalLess_trans _ _ _ hs
  · simp [ScanState.init]

theorem SendABatch_open (env : Env) (h : List Event) (g : mapset) (inst : naturalpathmap)
    (hc : env.cancelEvent h = false)
    (hn : env.initNetwork (h ++ ([Event.isCanceled .batchEntry false] ++ proposeContexts g))
      = true)
    (hg : env.negotiateAssociation (h ++ ([Event.isCanceled .batchEntry false]
      ++ proposeContexts g ++ [Event.initNetwork true])) = true) :
    (SendABatch env h g inst).events
      = [Event.isCanceled .batchEntry false] ++ proposeContexts g ++ [Event.initNetwork true]
        ++ [Event.negotiateAssociation true]
        ++ (sendItems env inst (h ++ ([Event.isCanceled .batchEntry false] ++ proposeContexts g
            ++ [Event.initNetwork true] ++ [Event.negotiateAssociation true]))).events
        ++ (if (sendItems env inst (h ++ ([Event.isCanceled .batchEntry false]
            ++ proposeContexts g ++ [Event.initNetwork true]
            ++ [Event.negotiateAssociation true]))).aborted = true then []
          else [Event.releaseAssociation])
    ∧ (SendABatch env h g inst).instances
      = (sendItems env inst (h ++ ([Event.isCanceled .batchEntry false] ++ proposeContexts g
            ++ [Event.initNetwork true] ++ [Event.negotiateAssociation true]))).instances := by
  simp only [SendABatch, IsCanceled, hc, hn, hg, Bool.false_eq_true, if_false, Bool.not_true]
  split <;> simp

theorem SendABatch_sublist (env : Env) (h : List Event) (g : mapset) (inst : naturalpathmap) :
    (SendABatch env h g inst).instances.Sublist inst := by
  rcases SendABatch_shape env h g inst with
    ⟨hi, _⟩ | ⟨pre, post, h1, _, _, _, _, hi, _⟩ | ⟨pre, h1, _, _, _, hi, _⟩
  · rw [hi]
  · rw [hi]; exact sendItems_sublist env inst h1
  · rw [hi]; exact sendItems_sublist env inst h1

/-! ## The order of the sends -/

theorem sentIds_append (a b : List Event) : sentIds (a ++ b) = sentIds a ++ sentIds b := by
  induction a with
  | nil => rfl
  | cons e rest ih => cases e <;> simp [sentIds, ih]

theorem sentIds_setup (pre : List Event) (hpre : ∀ e ∈ pre, IsSetupEvent e) :
    sentIds pre = [] := by
  induction pre with
  | nil => rfl
  | cons e rest ih =>
    have hrest := ih (fun x hx => hpre x (List.mem_cons_of_mem _ hx))
    rcases hpre e (List.mem_cons_self _ _) with rfl | ⟨_, _, rfl⟩ | rfl | rfl <;>
      simp [sentIds, hrest]

theorem sendItems_sentIds_prefix (env : Env) :
    ∀ (l : naturalpathmap) (h : List Event),
      sentIds (sendItems env l h).events <+: l.map Prod.fst := by
  intro l
  induction l with
  | nil => intro h; simp [sendItems, sentIds]
  | cons a rest ih =>
    intro h
    obtain ⟨k, p⟩ := a
    cases hc : env.cancelEvent h with
    | true => rw [sendItems_cancel env k p rest h hc]; simp [sentIds]
    | false =>
      cases hs : env.sendSTORERequest (h ++ [Event.isCanceled .batchItem false]) k p with
      | good =>
        rw [sendItems_good env k p rest h hc hs]
        simpa [sentIds, List.cons_prefix_cons] using ih _
      | peerAborted =>
        rw [sendItems_abort env k p rest h hc hs]
        simp [sentIds, List.cons_prefix_cons]
      | otherError =>
        rw [sendItems_other env k p rest h hc hs]
        simpa [sentIds, List.cons_prefix_cons] using ih _

theorem sendItems_sentIds_all (env : Env) (hcan : ∀ h, env.cancelEvent h = false)
    (hab : ∀ h k p, env.sendSTORERequest h k p ≠ .peerAborted) :
    ∀ (l : naturalpathmap) (h : List Event),
      sentIds (sendItems env l h).events = l.map Prod.fst := by
  intro l
  induction l with
  | nil => intro h; simp [sendItems, sentIds]
  | cons a rest ih =>
    intro h
    obtain ⟨k, p⟩ := a
    cases hs : env.sendSTORERequest (h ++ [Event.isCanceled .batchItem false]) k p with
    | good =>
      rw [sendItems_good env k p rest h (hcan h) hs]
      simpa [sentIds] using ih _
    | peerAborted => exact absurd hs (hab _ _ _)
    | otherError =>
      rw [sendItems_other env k p rest h (hcan h) hs]
      simpa [sentIds] using ih _

/-- C3. For a pending set `inst` that is what is left of the map built by the scan
of a study directory (any sublist of it, so the set at the first and at every later
pass): the identifiers of the `sendSTORERequest` calls of one `SendABatch` pass are
an initial segment of the identifiers of `inst` in map order, and they are strictly
ascending in the natural order; with no cancellation, no peer abort and a session
that opens they are all the identifiers of `inst`; and what is left pending is
again a sublist, so the relative order is the same on the next pass. -/
theorem SendABatch_sends_in_natural_order (env0 env : Env) (path : DirEntry)
    (h0 h : List Event) (g : mapset) (inst : naturalpathmap)
    (hsub : inst.Sublist (ScanDir env0 path h0 ScanState.init).1.instances) :
    sentIds (SendABatch env h g inst).events <+: inst.map Prod.fst
      ∧ (sentIds (SendABatch env h g inst).events).Pairwise (fun a b => naturalLess a b = true)
      ∧ ((∀ h1, env.cancelEvent h1 = false) →
          (∀ h1 k p, env.sendSTORERequest h1 k p ≠ .peerAborted) →
          (∀ h1, env.initNetwork h1 = true) → (∀ h1, env.negotiateAssociation h1 = true) →
          sentIds (SendABatch env h g inst).events = inst.map Prod.fst)
      ∧ (SendABatch env h g inst).instances.Sublist inst
      ∧ (SendABatch env h g inst).instances.Sublist
          (ScanDir env0 path h0 ScanState.init).1.instances := by
  have hsorted : (inst.map Prod.fst).Pairwise (fun a b => naturalLess a b = true) :=
    List.pairwise_map.mpr ((ScanDir_sorted env0 path h0).sublist hsub)
  have hpre : sentIds (SendABatch env h g inst).events <+: inst.map Prod.fst := by
    rcases SendABatch_shape env h g inst with
      ⟨_, _, pre, last, hev, hpre, hlast⟩ | ⟨pre, post, h1, hpre, _, hpost, hev, _, _⟩
        | ⟨pre, h1, hpre, _, hev, _, _⟩
    · rw [hev, sentIds_append, sentIds_setup pre hpre]
      rcases hlast with rfl | rfl | rfl <;> simp [sentIds]
    · rw [hev, hpost, sentIds_append, sentIds_append, sentIds_setup pre hpre]
      simpa [sentIds] using sendItems_sentIds_prefix env inst h1
    · rw [hev, sentIds_append, sentIds_setup pre hpre]
      simpa using sendItems_sentIds_prefix env inst h1
  have hsubl := SendABatch_sublist env h g inst
  refine ⟨hpre, hsorted.sublist hpre.sublist, ?_, hsubl, hsubl.trans hsub⟩
  intro hcan hab hnet hneg
  rw [(SendABatch_open env h g inst (hcan _) (hnet _) (hneg _)).1]
  have hpc : sentIds (proposeContexts g) = [] :=
    sentIds_setup _ (fun e he => Or.inr (Or.inl (proposeContexts_mem g e he)))
  rw [sentIds_append, sentIds_append, sentIds_append, sentIds_append, sentIds_append, hpc,
    sendItems_sentIds_all env hcan hab]
  split <;> simp [sentIds]

theorem SendABatch_pending (env : Env) (h : List Event) (g : mapset)
    (inst : naturalpathmap) (hnd : (inst.map Prod.fst).Nodup) :
    (SendABatch env h g inst).instances
        = inst.filter (fun x => decide
            (Event.sendSTORERequest x.1 x.2 .good ∉ (SendABatch env h g inst).events))
      ∧ (SendABatch env h g inst).instances.length
          + ((SendABatch env h g inst).events.filter Event.isAck).length = inst.length
      ∧ (∀ k p c, c ≠ StoreCond.good →
          Event.sendSTORERequest k p c ∈ (SendABatch env h g inst).events →
          (k, p) ∈ (SendABatch env h g inst).instances)
      ∧ (Event.initNetwork false ∈ (SendABatch env h g inst).events
          ∨ Event.negotiateAssociation false ∈ (SendABatch env h g inst).events →
          (SendABatch env h g inst).instances = inst) := by
  have hnd2 : inst.Nodup := List.Nodup.of_map _ hnd
  have hack : ∀ pre : List Event, (∀ e ∈ pre, IsSetupEvent e) → pre.filter Event.isAck = [] := by
    intro pre hpre
    apply List.filter_eq_nil_iff.mpr
    intro e he
    rcases hpre e he with rfl | ⟨_, _, rfl⟩ | rfl | rfl <;> simp [Event.isAck]
  have key : ∀ pre post h1 : List Event, (∀ e ∈ pre, IsSetupEvent e) →
      (post = [] ∨ post = [Event.releaseAssociation]) →
      (SendABatch env h g inst).events = pre ++ (sendItems env inst h1).events ++ post →
      (SendABatch env h g inst).instances = (sendItems env inst h1).instances →
      (SendABatch env h g inst).instances
        = inst.filter (fun x => decide
            (Event.sendSTORERequest x.1 x.2 .good ∉ (SendABatch env h g inst).events))
      ∧ (SendABatch env h g inst).instances.length
          + ((SendABatch env h g inst).events.filter Event.isAck).length = inst.length
      ∧ (∀ k p c, c ≠ StoreCond.good →
          Event.sendSTORERequest k p c ∈ (SendABatch env h g inst).events →
          (k, p) ∈ (SendABatch env h g inst).instances)
      ∧ (Event.initNetwork false ∈ (SendABatch env h g inst).events
          ∨ Event.negotiateAssociation false ∈ (SendABatch env h g inst).events →
          (SendABatch env h g inst).instances = inst) := by
    intro pre post h1 hpre hpost hev hi
    have hpostmem : ∀ e ∈ post, e = Event.releaseAssociation := by
      intro e he
      rcases hpost with rfl | rfl <;> simp_all
    have hmem : ∀ k p c, Event.sendSTORERequest k p c ∈ (SendABatch env h g inst).events ↔
        Event.sendSTORERequest k p c ∈ (sendItems env inst h1).events := by
      intro k p c
      rw [hev]
      simp only [List.mem_append]
      constructor
      · rintro ((hm | hm) | hm)
        · exact absurd rfl ((hpre _ hm).ne_store k p c)
        · exact hm
        · exact absurd (hpostmem _ hm) (by simp)
      · exact fun hm => Or.inl (Or.inr hm)
    have hitems : ∀ l : naturalpathmap, ∀ h2 : List Event, ∀ e ∈ (sendItems env l h2).events,
        e ≠ Event.initNetwork false ∧ e ≠ Event.negotiateAssociation false := by
      intro l
      induction l with
      | nil => intro h2 e; simp [sendItems]
      | cons a rest ih =>
        intro h2 e
        obtain ⟨k1, p1⟩ := a
        cases hc : env.cancelEvent h2 with
        | true =>
          rw [sendItems_cancel env k1 p1 rest h2 hc]
          intro he
          simp only [List.mem_singleton] at he
          subst he
          simp
        | false =>
          cases hs : env.sendSTORERequest (h2 ++ [Event.isCanceled .batchItem false]) k1 p1 with
          | good =>
            rw [sendItems_good env k1 p1 rest h2 hc hs]
            intro he
            simp only [List.mem_cons] at he
            rcases he with rfl | rfl | he
            · simp
            · simp
            · exact ih _ e he
          | peerAborted =>
            rw [sendItems_abort env k1 p1 rest h2 hc hs]
            intro he
            simp only [List.mem_cons, List.not_mem_nil, or_false] at he
            rcases he with rfl | rfl <;> simp
          | otherError =>
            rw [sendItems_other env k1 p1 rest h2 hc hs]
            intro he
            simp only [List.mem_cons] at he
            rcases he with rfl | rfl | he
            · simp
            · simp
            · exact ih _ e he
    refine ⟨?_, ?_, ?_, ?_⟩
    · rw [hi, sendItems_filter env inst h1 hnd2]
      apply List.filter_congr
      intro x _
      exact decide_eq_decide.mpr (not_congr (hmem x.1 x.2 .good).symm)
    · have hp : post.filter Event.isAck = [] := by
        rcases hpost with rfl | rfl <;> simp [Event.isAck, List.filter]
      rw [hi, hev, List.filter_append, List.filter_append, hack pre hpre, hp]
      simpa using sendItems_count env inst h1
    · intro k p c hne hm
      rw [hi]
      exact sendItems_failed_mem env inst h1 k p c hne ((hmem k p c).mp hm)
    · intro hf
      exfalso
      have hall : ∀ e ∈ (SendABatch env h g inst).events,
          e ≠ Event.initNetwork false ∧ e ≠ Event.negotiateAssociation false := by
        intro e he
        rw [hev] at he
        simp only [List.mem_append] at he
        rcases he with (he | he) | he
        · rcases hpre e he with rfl | ⟨_, _, rfl⟩ | rfl | rfl <;> simp
        · exact hitems inst h1 e he
        · rw [hpostmem e he]; simp
      rcases hf with hf | hf
      · exact (hall _ hf).1 rfl
      · exact (hall _ hf).2 rfl
  rcases SendABatch_shape env h g inst with
    ⟨hi, _, pre, last, hev, hpre, hlast⟩ | ⟨pre, post, h1, hpre, _, hpost, hev, hi, _⟩
      | ⟨pre, h1, hpre, _, hev, hi, _⟩
  · have hno : ∀ k p c, Event.sendSTORERequest k p c ∉ (SendABatch env h g inst).events := by
      intro k p c hm
      rw [hev, List.mem_append, List.mem_singleton] at hm
      rcases hm with hm | hm
      · exact (hpre _ hm).ne_store k p c rfl
      · rcases hlast with rfl | rfl | rfl <;> simp at hm
    refine ⟨?_, ?_, ?_, fun _ => hi⟩
    · rw [hi]
      symm
      apply List.filter_eq_self.mpr
      intro x _
      simpa using hno x.1 x.2 .good
    · rw [hi, hev, List.filter_append, hack pre hpre]
      rcases hlast with rfl | rfl | rfl <;> simp [Event.isAck, List.filter]
    · intro k p c _ hm
      exact absurd hm (hno k p c)
  · exact key pre post h1 hpre (Or.inr hpost) hev hi
  · exact key pre [] h1 hpre (Or.inl rfl) (by rw [hev]; simp) hi


theorem sendItems_abort_last (env : Env) :
    ∀ (l : naturalpathmap) (h : List Event) (k p : String),
      Event.sendSTORERequest k p .peerAborted ∈ (sendItems env l h).events →
      (sendItems env l h).aborted = true
        ∧ ∃ pre l1 l2 kept,
          (sendItems env l h).events = pre ++ [Event.sendSTORERequest k p .peerAborted]
            ∧ l = l1 ++ (k, p) :: l2
            ∧ sentIds pre = l1.map Prod.fst
            ∧ kept.Sublist l1
            ∧ (sendItems env l h).instances = kept ++ (k, p) :: l2 := by
  intro l
  induction l with
  | nil => intro h k p; simp [sendItems]
  | cons a rest ih =>
    intro h k p
    obtain ⟨k1, p1⟩ := a
    cases hc : env.cancelEvent h with
    | true => rw [sendItems_cancel env k1 p1 rest h hc]; simp
    | false =>
      cases hs : env.sendSTORERequest (h ++ [Event.isCanceled .batchItem false]) k1 p1 with
      | good =>
        rw [sendItems_good env k1 p1 rest h hc hs]
        intro hm
        simp only [List.mem_cons, reduceCtorEq, false_or, Event.sendSTORERequest.injEq,
          and_false] at hm
        obtain ⟨hab, pre, l1, l2, kept, hev, hl, hsent, hsub, hi⟩ := ih _ _ _ hm
        refine ⟨hab, Event.isCanceled .batchItem false :: Event.sendSTORERequest k1 p1 .good
          :: pre, (k1, p1) :: l1, l2, kept, ?_, ?_, ?_, hsub.cons _, hi⟩
        · simp only [hev, List.cons_append]
        · rw [hl]; rfl
        · simp [sentIds, hsent]
      | peerAborted =>
        rw [sendItems_abort env k1 p1 rest h hc hs]
        intro hm
        simp only [List.mem_cons, reduceCtorEq, false_or, Event.sendSTORERequest.injEq,
          List.not_mem_nil, or_false, and_true] at hm
        obtain ⟨rfl, rfl⟩ := hm
        exact ⟨rfl, [Event.isCanceled .batchItem false], [], rest, [], rfl, rfl, rfl,
          List.Sublist.refl _, rfl⟩
      | otherError =>
        rw [sendItems_other env k1 p1 rest h hc hs]
        intro hm
        simp only [List.mem_cons, reduceCtorEq, false_or, Event.sendSTORERequest.injEq,
          and_false] at hm
        obtain ⟨hab, pre, l1, l2, kept, hev, hl, hsent, hsub, hi⟩ := ih _ _ _ hm
        refine ⟨hab, Event.isCanceled .batchItem false
          :: Event.sendSTORERequest k1 p1 .otherError :: pre, (k1, p1) :: l1, l2,
          (k1, p1) :: kept, ?_, ?_, ?_, hsub.cons₂ _, ?_⟩
        · simp only [hev, List.cons_append]
        · rw [hl]; rfl
        · simp [sentIds, hsent]
        · simp only [hi, List.cons_append]

theorem SendABatch_abort_last (env : Env) (h : List Event) (g : mapset) (inst : naturalpathmap)
    (k p : String)
    (hm : Event.sendSTORERequest k p .peerAborted ∈ (SendABatch env h g inst).events) :
    (SendABatch env h g inst).ret = 1
      ∧ ∃ pre l1 l2 kept,
        (SendABatch env h g inst).events = pre ++ [Event.sendSTORERequest k p .peerAborted]
          ∧ inst = l1 ++ (k, p) :: l2
          ∧ sentIds pre = l1.map Prod.fst
          ∧ kept.Sublist l1
          ∧ (SendABatch env h g inst).instances = kept ++ (k, p) :: l2 := by
  rcases SendABatch_shape env h g inst with
    ⟨_, _, pre, last, hev, hpre, hlast⟩ | ⟨pre, post, h1, hpre, hab, hpost, hev, _, _⟩
      | ⟨pre, h1, hpre, _, hev, hi, hret⟩
  · exfalso
    rw [hev, List.mem_append, List.mem_singleton] at hm
    rcases hm with hm | hm
    · exact (hpre _ hm).ne_store k p _ rfl
    · rcases hlast with rfl | rfl | rfl <;> simp at hm
  · exfalso
    rw [hev, hpost] at hm
    simp only [List.mem_append, List.mem_singleton, reduceCtorEq, or_false] at hm
    rcases hm with hm | hm
    · exact (hpre _ hm).ne_store k p _ rfl
    · have := (sendItems_abort_last env inst h1 k p hm).1
      rw [hab] at this
      cases this
  · rw [hev, List.mem_append] at hm
    rcases hm with hm | hm
    · exact absurd rfl ((hpre _ hm).ne_store k p _)
    · obtain ⟨_, pre2, l1, l2, kept, hev2, hl, hsent, hsub, hi2⟩ :=
        sendItems_abort_last env inst h1 k p hm
      refine ⟨hret, pre ++ pre2, l1, l2, kept, ?_, hl, ?_, hsub, ?_⟩
      · rw [hev, hev2, List.append_assoc]
      · rw [sentIds_append, sentIds_setup pre hpre, hsent]; rfl
      · rw [hi, hi2]

/-- C2. One pass of `SendABatch` over a pending set with unique identifiers removes
exactly the instances whose `sendSTORERequest` was answered `good`: the pending set
afterwards is the original one without the acknowledged entries, in the same order;
the number of entries left plus the number of acknowledgements is the original
number; every instance whose send failed or was aborted by the peer is still
pending; when `initNetwork` or `negotiateAssociation` fails the pending set is
unchanged; and a send answered `DUL_PEERABORTEDASSOCIATION` is the last call of the
pass (`return 1`): the instances before the aborted one in map order are exactly
those handed to the transport before it, the aborted instance and all the
instances after it (never attempted) are still pending, and with `k`
acknowledgements the entries left of those before it number `k` less. -/
theorem SendABatch_removes_exactly_acknowledged (env : Env) (h : List Event) (g : mapset)
    (inst : naturalpathmap) (hnd : (inst.map Prod.fst).Nodup) :
    (SendABatch env h g inst).instances
        = inst.filter (fun x => decide
            (Event.sendSTORERequest x.1 x.2 .good ∉ (SendABatch env h g inst).events))
      ∧ (SendABatch env h g inst).instances.length
          + ((SendABatch env h g inst).events.filter Event.isAck).length = inst.length
      ∧ (∀ k p c, c ≠ StoreCond.good →
          Event.sendSTORERequest k p c ∈ (SendABatch env h g inst).events →
          (k, p) ∈ (SendABatch env h g inst).instances)
      ∧ (Event.initNetwork false ∈ (SendABatch env h g inst).events
          ∨ Event.negotiateAssociation false ∈ (SendABatch env h g inst).events →
          (SendABatch env h g inst).instances = inst)
      ∧ (∀ k p, Event.sendSTORERequest k p .peerAborted ∈ (SendABatch env h g inst).events →
          (SendABatch env h g inst).ret = 1
          ∧ ∃ pre l1 l2 kept,
            (SendABatch env h g inst).events
                = pre ++ [Event.sendSTORERequest k p .peerAborted]
              ∧ inst = l1 ++ (k, p) :: l2
              ∧ sentIds pre = l1.map Prod.fst
              ∧ kept.Sublist l1
              ∧ (SendABatch env h g inst).instances = kept ++ (k, p) :: l2
              ∧ kept.length + ((SendABatch env h g inst).events.filter Event.isAck).length
                  = l1.length) := by
  refine ⟨(SendABatch_pending env h g inst hnd).1, (SendABatch_pending env h g inst hnd).2.1,
    (SendABatch_pending env h g inst hnd).2.2.1, (SendABatch_pending env h g inst hnd).2.2.2,
    ?_⟩
  intro k p hm
  obtain ⟨hret, pre, l1, l2, kept, hev, hl, hsent, hsub, hi⟩ :=
    SendABatch_abort_last env h g inst k p hm
  refine ⟨hret, pre, l1, l2, kept, hev, hl, hsent, hsub, hi, ?_⟩
  have hcount := (SendABatch_pending env h g inst hnd).2.1
  rw [hi] at hcount
  have hlen : inst.length = l1.length + (l2.length + 1) := by rw [hl]; simp
  simp only [List.length_append, List.length_cons] at hcount
  omega

/-! ## Facts about the study send loop -/

theorem toInt32_of_lt (n : Nat) (hn : n < 2 ^ 31) : toInt32 n = (n : Int) := by
  unfold toInt32
  have h1 : n % 4294967296 = n := Nat.mod_eq_of_lt (by omega)
  rw [h1, if_pos (by omega)]

theorem attempt_sublist (env : Env) (h : List Event) (g : mapset) (inst : naturalpathmap) :
    (attempt env h g inst).instances.Sublist inst := by
  unfold attempt
  split
  · exact SendABatch_sublist env h g inst
  · exact List.Sublist.refl _

theorem iteration_instances (env : Env) (g : mapset) (h : List Event) (inst : naturalpathmap)
    (retry : Int) :
    (iteration env g h inst retry).instances = (attempt env h g inst).instances := by
  simp only [iteration]

theorem iteration_unsentcountafter (env : Env) (g : mapset) (h : List Event)
    (inst : naturalpathmap) (retry : Int) :
    (iteration env g h inst retry).unsentcountafter
      = toInt32 (attempt env h g inst).instances.length := by
  simp only [iteration]

theorem iteration_retry (env : Env) (g : mapset) (h : List Event) (inst : naturalpathmap)
    (retry : Int) :
    (iteration env g h inst retry).retry
      = (backoff env (h ++ (attempt env h g inst).events) (toInt32 inst.length)
          (toInt32 (attempt env h g inst).instances.length) retry).1 := by
  simp only [iteration]

theorem iteration_events (env : Env) (g : mapset) (h : List Event) (inst : naturalpathmap)
    (retry : Int) :
    (iteration env g h inst retry).events
      = (attempt env h g inst).events
        ++ (backoff env (h ++ (attempt env h g inst).events) (toInt32 inst.length)
          (toInt32 (attempt env h g inst).instances.length) retry).2
        ++ [Event.isCanceled .loopCond (env.cancelEvent (h ++ (attempt env h g inst).events
          ++ (backoff env (h ++ (attempt env h g inst).events) (toInt32 inst.length)
            (toInt32 (attempt env h g inst).instances.length) retry).2))] := by
  simp only [iteration, IsCanceled]

theorem iteration_again (env : Env) (g : mapset) (h : List Event) (inst : naturalpathmap)
    (retry : Int) :
    (iteration env g h inst retry).again
      = (!(env.cancelEvent (h ++ (attempt env h g inst).events
          ++ (backoff env (h ++ (attempt env h g inst).events) (toInt32 inst.length)
            (toInt32 (attempt env h g inst).instances.length) retry).2))
        && decide (toInt32 (attempt env h g inst).instances.length > 0)
        && decide ((backoff env (h ++ (attempt env h g inst).events) (toInt32 inst.length)
          (toInt32 (attempt env h g inst).instances.length) retry).1 < 10000)) := by
  simp only [iteration, IsCanceled]

theorem backoff_retry (env : Env) (h : List Event) (before after retry : Int) :
    (backoff env h before after retry).1
      = if after > 0 ∧ before = after ∧ retry < 10000 then retry + 1 else 0 := by
  unfold backoff
  split <;> rfl

theorem iteration_facts (env : Env) (g : mapset) (h : List Event) (inst : naturalpathmap)
    (retry : Int) (h0 : 0 ≤ retry) (h1 : retry < 10000) :
    (iteration env g h inst retry).instances.Sublist inst
      ∧ (iteration env g h inst retry).unsentcountafter
          = toInt32 (iteration env g h inst retry).instances.length
      ∧ 0 ≤ (iteration env g h inst retry).retry
      ∧ ((iteration env g h inst retry).again = true →
          (iteration env g h inst retry).retry < 10000
          ∧ (iteration env g h inst retry).instances.length * 10001
              + (10000 - (iteration env g h inst retry).retry).toNat
            < inst.length * 10001 + (10000 - retry).toNat) := by
  have hsub := attempt_sublist env h g inst
  have hlen := hsub.length_le
  rw [iteration_instances, iteration_unsentcountafter, iteration_retry, iteration_again,
    backoff_retry]
  refine ⟨hsub, rfl, ?_, ?_⟩
  · split <;> omega
  · intro hag
    simp only [Bool.and_eq_true, Bool.not_eq_true', decide_eq_true_eq, backoff_retry] at hag
    obtain ⟨⟨_, hpos⟩, hlt⟩ := hag
    refine ⟨hlt, ?_⟩
    split
    · omega
    · rename_i hcond
      have hne : (attempt env h g inst).instances.length ≠ inst.length := by
        intro heq
        apply hcond
        rw [heq]
        exact ⟨by rw [heq] at hpos; exact hpos, rfl, h1⟩
      omega

theorem sendItems_events_kind (env : Env) :
    ∀ (l : naturalpathmap) (h : List Event), ∀ e ∈ (sendItems env l h).events,
      e.isBatchEvent = true := by
  intro l
  induction l with
  | nil => intro h e; simp [sendItems]
  | cons a rest ih =>
    intro h e
    obtain ⟨k1, p1⟩ := a
    cases hc : env.cancelEvent h with
    | true =>
      rw [sendItems_cancel env k1 p1 rest h hc]
      intro he
      simp only [List.mem_singleton] at he
      subst he
      rfl
    | false =>
      cases hs : env.sendSTORERequest (h ++ [Event.isCanceled .batchItem false]) k1 p1 with
      | good =>
        rw [sendItems_good env k1 p1 rest h hc hs]
        intro he
        simp only [List.mem_cons] at he
        rcases he with rfl | rfl | he
        · rfl
        · rfl
        · exact ih _ e he
      | peerAborted =>
        rw [sendItems_abort env k1 p1 rest h hc hs]
        intro he
        simp only [List.mem_cons, List.not_mem_nil, or_false] at he
        rcases he with rfl | rfl <;> rfl
      | otherError =>
        rw [sendItems_other env k1 p1 rest h hc hs]
        intro he
        simp only [List.mem_cons] at he
        rcases he with rfl | rfl | he
        · rfl
        · rfl
        · exact ih _ e he

theorem IsSetupEvent.isBatchEvent {e : Event} (he : IsSetupEvent e) : e.isBatchEvent = true := by
  rcases he with rfl | ⟨_, _, rfl⟩ | rfl | rfl <;> rfl

theorem SendABatch_events_kind (env : Env) (h : List Event) (g : mapset)
    (inst : naturalpathmap) : ∀ e ∈ (SendABatch env h g inst).events, e.isBatchEvent = true := by
  intro e he
  rcases SendABatch_shape env h g inst with
    ⟨_, _, pre, last, hev, hpre, hlast⟩ | ⟨pre, post, h1, hpre, _, hpost, hev, _, _⟩
      | ⟨pre, h1, hpre, _, hev, _, _⟩
  · rw [hev, List.mem_append, List.mem_singleton] at he
    rcases he with he | rfl
    · exact (hpre e he).isBatchEvent
    · rcases hlast with rfl | rfl | rfl <;> rfl
  · rw [hev, hpost] at he
    simp only [List.mem_append, List.mem_singleton] at he
    rcases he with (he | he) | rfl
    · exact (hpre e he).isBatchEvent
    · exact sendItems_events_kind env inst h1 e he
    · rfl
  · rw [hev, List.mem_append] at he
    rcases he with he | he
    · exact (hpre e he).isBatchEvent
    · exact sendItems_events_kind env inst h1 e he

theorem attempt_events_kind (env : Env) (h : List Event) (g : mapset) (inst : naturalpathmap) :
    ∀ e ∈ (attempt env h g inst).events, e.isBatchEvent = true := by
  unfold attempt
  split
  · exact SendABatch_events_kind env h g inst
  · simp

theorem sleepLoop_events_kind (env : Env) :
    ∀ (n : Nat) (h : List Event), ∀ e ∈ sleepLoop env n h, e.isSleepEvent = true := by
  intro n
  induction n with
  | zero => intro h e; simp [sleepLoop]
  | succ n ih =>
    intro h e he
    simp only [sleepLoop, IsCanceled] at he
    split at he
    · simp only [List.mem_cons, List.not_mem_nil, or_false] at he
      rcases he with rfl | rfl <;> rfl
    · simp only [List.cons_append, List.mem_cons, List.mem_append, List.not_mem_nil,
        or_false, List.nil_append] at he
      rcases he with rfl | rfl | he
      · rfl
      · rfl
      · exact ih _ e he

theorem backoff_events_kind (env : Env) (h : List Event) (before after retry : Int) :
    ∀ e ∈ (backoff env h before after retry).2, e.isSleepEvent = true := by
  unfold backoff
  split
  · exact sleepLoop_events_kind env _ _
  · simp

theorem iteration_events_kind (env : Env) (g : mapset) (h : List Event) (inst : naturalpathmap)
    (retry : Int) : ∀ e ∈ (iteration env g h inst retry).events,
      e.isBatchEvent = true ∨ e.isSleepEvent = true ∨ e.isLoopCond = true := by
  intro e he
  rw [iteration_events] at he
  simp only [List.mem_append, List.mem_singleton] at he
  rcases he with (he | he) | rfl
  · exact Or.inl (attempt_events_kind env h g inst e he)
  · exact Or.inr (Or.inl (backoff_events_kind env _ _ _ _ e he))
  · exact Or.inr (Or.inr rfl)

theorem sendLoop_succ (env : Env) (g : mapset) (fuel : Nat) (h : List Event)
    (inst : naturalpathmap) (retry : Int) :
    sendLoop env g (fuel + 1) h inst retry
      = if (iteration env g h inst retry).again = true then
          match sendLoop env g fuel (h ++ (iteration env g h inst retry).events)
              (iteration env g h inst retry).instances (iteration env g h inst retry).retry with
          | none => none
          | some r => some { r with events := (iteration env g h inst retry).events ++ r.events }
        else some ⟨(iteration env g h inst retry).instances,
          (iteration env g h inst retry).unsentcountafter,
          (iteration env g h inst retry).retry, (iteration env g h inst retry).events⟩ := by
  simp only [sendLoop]

theorem sendLoop_terminates (env : Env) (g : mapset) :
    ∀ (fuel : Nat) (h : List Event) (inst : naturalpathmap) (retry : Int),
      0 ≤ retry → retry < 10000 →
      inst.length * 10001 + (10000 - retry).toNat < fuel →
      ∃ r, sendLoop env g fuel h inst retry = some r := by
  intro fuel
  induction fuel with
  | zero => intro h inst retry _ _ hf; omega
  | succ fuel ih =>
    intro h inst retry h0 h1 hf
    obtain ⟨_, _, h0', hag⟩ := iteration_facts env g h inst retry h0 h1
    rw [sendLoop_succ]
    split
    · rename_i hagain
      obtain ⟨hlt, hdec⟩ := hag hagain
      obtain ⟨r, hr⟩ := ih (h ++ (iteration env g h inst retry).events)
        (iteration env g h inst retry).instances (iteration env g h inst retry).retry
        h0' hlt (by omega)
      rw [hr]
      exact ⟨_, rfl⟩
    · exact ⟨_, rfl⟩

theorem sendLoop_mono (env : Env) (g : mapset) :
    ∀ (fuel : Nat) (h : List Event) (inst : naturalpathmap) (retry : Int) (r : LoopResult),
      sendLoop env g fuel h inst retry = some r →
      ∀ k, sendLoop env g (fuel + k) h inst retry = some r := by
  intro fuel
  induction fuel with
  | zero => intro h inst retry r hr; simp [sendLoop] at hr
  | succ fuel ih =>
    intro h inst retry r hr k
    have hk : fuel + 1 + k = (fuel + k) + 1 := by omega
    rw [hk, sendLoop_succ]
    rw [sendLoop_succ] at hr
    split
    · rename_i hagain
      rw [if_pos hagain] at hr
      cases hrec : sendLoop env g fuel (h ++ (iteration env g h inst retry).events)
          (iteration env g h inst retry).instances (iteration env g h inst retry).retry with
      | none => rw [hrec] at hr; cases hr
      | some r1 =>
        rw [hrec] at hr
        rw [ih _ _ _ r1 hrec k]
        exact hr
    · rename_i hagain
      rw [if_neg hagain] at hr
      exact hr

theorem sendLoop_result (env : Env) (g : mapset) :
    ∀ (fuel : Nat) (h : List Event) (inst : naturalpathmap) (retry : Int) (r : LoopResult),
      0 ≤ retry → retry < 10000 →
      sendLoop env g fuel h inst retry = some r →
      r.instances.Sublist inst
        ∧ r.unsentcountafter = toInt32 r.instances.length
        ∧ (∀ e ∈ r.events, e.isBatchEvent = true ∨ e.isSleepEvent = true ∨ e.isLoopCond = true)
        ∧ 0 ≤ r.retry ∧ r.retry ≤ 10000
        ∧ ((∀ h1, env.cancelEvent h1 = false) → r.unsentcountafter ≤ 0 ∨ r.retry = 10000) := by
  intro fuel
  induction fuel with
  | zero => intro h inst retry r _ _ hr; simp [sendLoop] at hr
  | succ fuel ih =>
    intro h inst retry r h0 h1 hr
    obtain ⟨hsub, hafter, h0', hag⟩ := iteration_facts env g h inst retry h0 h1
    have hle : (iteration env g h inst retry).retry ≤ 10000 := by
      rw [iteration_retry, backoff_retry]
      split <;> omega
    rw [sendLoop_succ] at hr
    split at hr
    · rename_i hagain
      obtain ⟨hlt, _⟩ := hag hagain
      cases hrec : sendLoop env g fuel (h ++ (iteration env g h inst retry).events)
          (iteration env g h inst retry).instances (iteration env g h inst retry).retry with
      | none => rw [hrec] at hr; cases hr
      | some r1 =>
        rw [hrec] at hr
        obtain ⟨hs1, ha1, he1, hr0, hr1, hx1⟩ := ih _ _ _ r1 h0' hlt hrec
        simp only [Option.some.injEq] at hr
        subst hr
        refine ⟨hs1.trans hsub, ha1, ?_, hr0, hr1, hx1⟩
        intro e he
        rcases List.mem_append.mp he with he | he
        · exact iteration_events_kind env g h inst retry e he
        · exact he1 e he
    · rename_i hagain
      simp only [Option.some.injEq] at hr
      subst hr
      refine ⟨hsub, hafter, iteration_events_kind env g h inst retry, h0', hle, ?_⟩
      intro hcan
      simp only
      rw [iteration_again, hcan] at hagain
      rw [iteration_unsentcountafter, iteration_retry]
      simp only [Bool.not_false, Bool.true_and, Bool.and_eq_true, decide_eq_true_eq,
        not_and, not_lt] at hagain
      rw [iteration_retry] at hle
      by_cases hpos : toInt32 (attempt env h g inst).instances.length > 0
      · right
        have := hagain hpos
        omega
      · left
        omega

mutual
theorem ScanDir_events (env : Env) :
    ∀ (e : DirEntry) (h : List Event) (s : ScanState), ∀ x ∈ (ScanDir env e h s).2,
      ∃ h1, x = Event.isCanceled .scanDir (env.cancelEvent h1)
  | .directory _ entries, h, s => by
    rw [ScanDir]
    exact ScanEntries_events env entries h s
  | .regularFile _ _, _, s => by rw [ScanDir]; simp
  | .other _, _, s => by rw [ScanDir]; simp
theorem ScanEntries_events (env : Env) :
    ∀ (es : List DirEntry) (h : List Event) (s : ScanState), ∀ x ∈ (ScanEntries env es h s).2,
      ∃ h1, x = Event.isCanceled .scanDir (env.cancelEvent h1)
  | [], _, s => by rw [ScanEntries]; simp
  | .regularFile path content :: rest, h, s => by
    simp only [ScanEntries, IsCanceled]
    split
    · intro x hx
      simp only [List.mem_singleton] at hx
      exact ⟨_, hx⟩
    · intro x hx
      simp only [List.append_nil, List.mem_append, List.mem_singleton] at hx
      rcases hx with rfl | hx
      · exact ⟨_, rfl⟩
      · exact ScanEntries_events env rest _ _ x hx
  | .directory path entries :: rest, h, s => by
    simp only [ScanEntries, IsCanceled]
    split
    · intro x hx
      simp only [List.mem_singleton] at hx
      exact ⟨_, hx⟩
    · intro x hx
      simp only [List.mem_append, List.mem_singleton] at hx
      rcases hx with (rfl | hx) | hx
      · exact ⟨_, rfl⟩
      · exact ScanDir_events env (.directory path entries) _ _ x hx
      · exact ScanEntries_events env rest _ _ x hx
  | .other _ :: rest, h, s => by
    simp only [ScanEntries, IsCanceled]
    split
    · intro x hx
      simp only [List.mem_singleton] at hx
      exact ⟨_, hx⟩
    · intro x hx
      simp only [List.append_nil, List.mem_append, List.mem_singleton] at hx
      rcases hx with rfl | hx
      · exact ⟨_, rfl⟩
      · exact ScanEntries_events env rest _ _ x hx
end

theorem filter_mark_scan (env : Env) (e : DirEntry) (h : List Event) (s : ScanState) :
    (ScanDir env e h s).2.filter Event.isSetStudyCheck = [] := by
  apply List.filter_eq_nil_iff.mpr
  intro x hx
  obtain ⟨b, rfl⟩ := ScanDir_events env e h s x hx
  simp [Event.isSetStudyCheck]

theorem filter_mark_loop (evs : List Event)
    (hk : ∀ e ∈ evs, e.isBatchEvent = true ∨ e.isSleepEvent = true ∨ e.isLoopCond = true) :
    evs.filter Event.isSetStudyCheck = [] := by
  apply List.filter_eq_nil_iff.mpr
  intro x hx
  have := hk x hx
  cases x <;> simp [Event.isSetStudyCheck, Event.isBatchEvent, Event.isSleepEvent,
    Event.isLoopCond] at this ⊢

theorem SendStudy_eq_some (env : Env) (fuel : Nat) (path : DirEntry) (r : StudyResult)
    (hr : SendStudy env fuel path = some r) :
    ∃ lr, sendLoop env (ScanDir env path [] ScanState.init).1.grouping fuel
        (ScanDir env path [] ScanState.init).2
        (ScanDir env path [] ScanState.init).1.instances 0 = some lr
      ∧ r.instances = lr.instances
      ∧ r.study_uid = (ScanDir env path [] ScanState.init).1.study_uid
      ∧ r.retry = lr.retry
      ∧ r.events = (ScanDir env path [] ScanState.init).2 ++ lr.events ++
          (if lr.unsentcountafter = 0 then
            [Event.setStudyCheck (ScanDir env path [] ScanState.init).1.study_uid false]
          else []) := by
  simp only [SendStudy] at hr
  cases hl : sendLoop env (ScanDir env path [] ScanState.init).1.grouping fuel
        (ScanDir env path [] ScanState.init).2
        (ScanDir env path [] ScanState.init).1.instances 0 with
  | none => rw [hl] at hr; cases hr
  | some lr =>
    rw [hl] at hr
    simp only [Option.some.injEq] at hr
    subst hr
    exact ⟨lr, rfl, rfl, rfl, rfl, rfl⟩

/-- C1. For a study whose scan yields fewer than 2^31 instances (so that the `int`
counts are the sizes) and every behaviour of the collaborators for which `SendStudy`
returns: `SetStudyCheck(study_uid, false)` is among the calls of the run if and only
if the pending set is empty when the loop is left; with instances still pending
there is no call to `SetStudyCheck` at all, and with none pending there is exactly
that one. -/
theorem SendStudy_marks_sent_iff_pending_empty (env : Env) (fuel : Nat) (path : DirEntry)
    (r : StudyResult)
    (hsize : (ScanDir env path [] ScanState.init).1.instances.length < 2 ^ 31)
    (hr : SendStudy env fuel path = some r) :
    (Event.setStudyCheck r.study_uid false ∈ r.events ↔ r.instances = [])
      ∧ (r.instances ≠ [] → r.events.filter Event.isSetStudyCheck = [])
      ∧ (r.instances = [] →
          r.events.filter Event.isSetStudyCheck = [Event.setStudyCheck r.study_uid false]) := by
  obtain ⟨lr, hl, hi, hu, _, he⟩ := SendStudy_eq_some env fuel path r hr
  obtain ⟨hsub, hafter, hkind, _, _, _⟩ :=
    sendLoop_result env _ fuel _ _ 0 lr (le_refl _) (by norm_num) hl
  have hlen := hsub.length_le
  have hcount : lr.unsentcountafter = (lr.instances.length : Int) := by
    rw [hafter]
    exact toInt32_of_lt _ (by omega)
  have hzero : lr.unsentcountafter = 0 ↔ r.instances = [] := by
    rw [hcount, hi]
    constructor
    · intro hz
      exact List.length_eq_zero.mp (by exact_mod_cast hz)
    · intro hz
      rw [hz]
      rfl
  have hfilter : r.events.filter Event.isSetStudyCheck
      = if lr.unsentcountafter = 0 then [Event.setStudyCheck r.study_uid false] else [] := by
    rw [he, List.filter_append, List.filter_append, filter_mark_scan, filter_mark_loop _ hkind,
      hu]
    split <;> simp [Event.isSetStudyCheck, List.filter]
  have h2 : r.instances ≠ [] → r.events.filter Event.isSetStudyCheck = [] := by
    intro hne
    rw [hfilter, if_neg (fun hz => hne (hzero.mp hz))]
  have h3 : r.instances = [] →
      r.events.filter Event.isSetStudyCheck = [Event.setStudyCheck r.study_uid false] := by
    intro hem
    rw [hfilter, if_pos (hzero.mpr hem)]
  refine ⟨⟨?_, ?_⟩, h2, h3⟩
  · intro hm
    by_contra hne
    have hin : Event.setStudyCheck r.study_uid false ∈ r.events.filter Event.isSetStudyCheck :=
      List.mem_filter.mpr ⟨hm, rfl⟩
    rw [h2 hne] at hin
    cases hin
  · intro hem
    have hin : Event.setStudyCheck r.study_uid false ∈ r.events.filter Event.isSetStudyCheck := by
      rw [h3 hem]
      simp
    exact (List.mem_filter.mp hin).1

theorem SendABatch_count (env : Env) (h : List Event) (g : mapset) (inst : naturalpathmap) :
    (SendABatch env h g inst).instances.length
      + ((SendABatch env h g inst).events.filter Event.isAck).length = inst.length := by
  have hack : ∀ pre : List Event, (∀ e ∈ pre, IsSetupEvent e) → pre.filter Event.isAck = [] := by
    intro pre hpre
    apply List.filter_eq_nil_iff.mpr
    intro e he
    rcases hpre e he with rfl | ⟨_, _, rfl⟩ | rfl | rfl <;> simp [Event.isAck]
  rcases SendABatch_shape env h g inst with
    ⟨hi, _, pre, last, hev, hpre, hlast⟩ | ⟨pre, post, h1, hpre, _, hpost, hev, hi, _⟩
      | ⟨pre, h1, hpre, _, hev, hi, _⟩
  · rw [hi, hev, List.filter_append, hack pre hpre]
    rcases hlast with rfl | rfl | rfl <;> simp [Event.isAck, List.filter]
  · rw [hi, hev, hpost, List.filter_append, List.filter_append, hack pre hpre]
    simpa [Event.isAck, List.filter] using sendItems_count env inst h1
  · rw [hi, hev, List.filter_append, hack pre hpre]
    simpa using sendItems_count env inst h1

theorem attempt_count (env : Env) (h : List Event) (g : mapset) (inst : naturalpathmap) :
    (attempt env h g inst).instances.length
      + ((attempt env h g inst).events.filter Event.isAck).length = inst.length := by
  unfold attempt
  split
  · exact SendABatch_count env h g inst
  · simp

theorem iteration_count (env : Env) (g : mapset) (h : List Event) (inst : naturalpathmap)
    (retry : Int) :
    (iteration env g h inst retry).instances.length
      + ((iteration env g h inst retry).events.filter Event.isAck).length = inst.length := by
  have hb : (backoff env (h ++ (attempt env h g inst).events) (toInt32 inst.length)
      (toInt32 (attempt env h g inst).instances.length) retry).2.filter Event.isAck = [] := by
    apply List.filter_eq_nil_iff.mpr
    intro e he
    have := backoff_events_kind env _ _ _ _ e he
    cases e <;> simp [Event.isAck, Event.isSleepEvent] at this ⊢
  rw [iteration_instances, iteration_events, List.filter_append, List.filter_append, hb]
  simpa [Event.isAck, List.filter] using attempt_count env h g inst

theorem iteration_counter (env : Env) (g : mapset) (h : List Event) (inst : naturalpathmap)
    (retry : Int) (hne : inst ≠ []) (hsize : inst.length < 2 ^ 31) (h1 : retry < 10000) :
    ((iteration env g h inst retry).instances.length = inst.length →
        (iteration env g h inst retry).retry = retry + 1)
      ∧ ((iteration env g h inst retry).instances.length < inst.length →
        (iteration env g h inst retry).retry = 0) := by
  have hpos : 0 < inst.length := List.length_pos.mpr hne
  have hle := (attempt_sublist env h g inst).length_le
  rw [iteration_instances, iteration_retry, backoff_retry, toInt32_of_lt _ hsize,
    toInt32_of_lt _ (by omega)]
  constructor
  · intro heq
    rw [if_pos]
    rw [heq]
    exact ⟨by exact_mod_cast hpos, rfl, h1⟩
  · intro hlt
    rw [if_neg]
    intro hc
    have := hc.2.1
    omega

/-- C4. One pass through the body of the `SendStudy` loop that starts with a
non-empty pending set (of fewer than 2^31 instances) and `retry < 10000`: the
count after is the count before minus the number of acknowledged sends; if the
batch acknowledged nothing, `retry` is `retry + 1` after the pass; if it
acknowledged at least one instance, `retry` is 0; and a second pass after a
zero-progress one that again acknowledges nothing leaves `retry + 2`. -/
theorem SendStudy_retry_counter (env : Env) (g : mapset) (h : List Event)
    (inst : naturalpathmap) (retry : Int) (hne : inst ≠ []) (hsize : inst.length < 2 ^ 31)
    (h1 : retry < 10000) :
    (iteration env g h inst retry).instances.length
        + ((iteration env g h inst retry).events.filter Event.isAck).length = inst.length
      ∧ (((iteration env g h inst retry).events.filter Event.isAck).length = 0 →
          (iteration env g h inst retry).retry = retry + 1)
      ∧ (1 ≤ ((iteration env g h inst retry).events.filter Event.isAck).length →
          (iteration env g h inst retry).retry = 0)
      ∧ (((iteration env g h inst retry).events.filter Event.isAck).length = 0 →
          ((iteration env g (h ++ (iteration env g h inst retry).events)
            (iteration env g h inst retry).instances
            (iteration env g h inst retry).retry).events.filter Event.isAck).length = 0 →
          retry + 1 < 10000 →
          (iteration env g (h ++ (iteration env g h inst retry).events)
            (iteration env g h inst retry).instances
            (iteration env g h inst retry).retry).retry = retry + 2) := by
  have hcount := iteration_count env g h inst retry
  have hctr := iteration_counter env g h inst retry hne hsize h1
  refine ⟨hcount, fun hz => hctr.1 (by omega), fun hp => hctr.2 (by omega), ?_⟩
  intro hz hz2 hlt
  have hlen : (iteration env g h inst retry).instances.length = inst.length := by omega
  have hr1 := hctr.1 hlen
  have hne2 : (iteration env g h inst retry).instances ≠ [] := by
    intro hem
    rw [hem] at hlen
    exact hne (List.length_eq_zero.mp hlen.symm)
  have hcount2 := iteration_count env g (h ++ (iteration env g h inst retry).events)
    (iteration env g h inst retry).instances (iteration env g h inst retry).retry
  have hctr2 := iteration_counter env g (h ++ (iteration env g h inst retry).events)
    (iteration env g h inst retry).instances (iteration env g h inst retry).retry hne2
    (by omega) (by omega)
  rw [hctr2.1 (by omega), hr1]
  ring

/-! ## Zero-progress runs -/

theorem sendItems_filter_batchEntry (env : Env) :
    ∀ (l : naturalpathmap) (h : List Event),
      (sendItems env l h).events.filter Event.isBatchEntry = [] := by
  intro l
  induction l with
  | nil => intro h; simp [sendItems]
  | cons a rest ih =>
    intro h
    obtain ⟨k1, p1⟩ := a
    cases hc : env.cancelEvent h with
    | true => rw [sendItems_cancel env k1 p1 rest h hc]; simp [Event.isBatchEntry, List.filter]
    | false =>
      cases hs : env.sendSTORERequest (h ++ [Event.isCanceled .batchItem false]) k1 p1 with
      | good =>
        rw [sendItems_good env k1 p1 rest h hc hs]
        simpa [Event.isBatchEntry, List.filter] using ih _
      | peerAborted =>
        rw [sendItems_abort env k1 p1 rest h hc hs]; simp [Event.isBatchEntry, List.filter]
      | otherError =>
        rw [sendItems_other env k1 p1 rest h hc hs]
        simpa [Event.isBatchEntry, List.filter] using ih _

theorem proposeContexts_filter_batchEntry (g : mapset) :
    (proposeContexts g).filter Event.isBatchEntry = [] := by
  apply List.filter_eq_nil_iff.mpr
  intro e he
  obtain ⟨c, x, rfl⟩ := proposeContexts_mem g e he
  simp [Event.isBatchEntry]

theorem SendABatch_filter_batchEntry (env : Env) (h : List Event) (g : mapset)
    (inst : naturalpathmap) :
    (SendABatch env h g inst).events.filter Event.isBatchEntry
      = [Event.isCanceled .batchEntry (env.cancelEvent h)] := by
  simp only [SendABatch, IsCanceled]
  split
  · simp [Event.isBatchEntry, List.filter]
  · split
    · simp [Event.isBatchEntry, List.filter, proposeContexts_filter_batchEntry]
    · split
      · simp [Event.isBatchEntry, List.filter, proposeContexts_filter_batchEntry]
      · split <;>
          simp [Event.isBatchEntry, List.filter, proposeContexts_filter_batchEntry,
            sendItems_filter_batchEntry]

theorem sendItems_noack (env : Env) (hno : ∀ h k p, env.sendSTORERequest h k p ≠ .good) :
    ∀ (l : naturalpathmap) (h : List Event), (sendItems env l h).instances = l := by
  intro l
  induction l with
  | nil => intro h; simp [sendItems]
  | cons a rest ih =>
    intro h
    obtain ⟨k1, p1⟩ := a
    cases hc : env.cancelEvent h with
    | true => rw [sendItems_cancel env k1 p1 rest h hc]
    | false =>
      cases hs : env.sendSTORERequest (h ++ [Event.isCanceled .batchItem false]) k1 p1 with
      | good => exact absurd hs (hno _ _ _)
      | peerAborted => rw [sendItems_abort env k1 p1 rest h hc hs]
      | otherError => rw [sendItems_other env k1 p1 rest h hc hs, ih]

theorem SendABatch_noack (env : Env) (hno : ∀ h k p, env.sendSTORERequest h k p ≠ .good)
    (h : List Event) (g : mapset) (inst : naturalpathmap) :
    (SendABatch env h g inst).instances = inst := by
  rcases SendABatch_shape env h g inst with
    ⟨hi, _⟩ | ⟨pre, post, h1, _, _, _, _, hi, _⟩ | ⟨pre, h1, _, _, _, hi, _⟩
  · exact hi
  · rw [hi, sendItems_noack env hno]
  · rw [hi, sendItems_noack env hno]

theorem attempt_pos (env : Env) (h : List Event) (g : mapset) (inst : naturalpathmap)
    (hne : inst ≠ []) (hsize : inst.length < 2 ^ 31) :
    attempt env h g inst = SendABatch env h g inst := by
  have hpos : 0 < inst.length := List.length_pos.mpr hne
  unfold attempt
  rw [toInt32_of_lt _ hsize, if_pos (by exact_mod_cast hpos)]

theorem filter_batchEntry_sleep (evs : List Event) (hk : ∀ e ∈ evs, e.isSleepEvent = true) :
    evs.filter Event.isBatchEntry = [] := by
  apply List.filter_eq_nil_iff.mpr
  intro e he
  have := hk e he
  cases e <;> simp [Event.isBatchEntry, Event.isSleepEvent] at this ⊢
  rename_i site _
  cases site <;> simp at this ⊢

theorem iteration_stall (env : Env) (hno : ∀ h k p, env.sendSTORERequest h k p ≠ .good)
    (g : mapset) (h : List Event) (inst : naturalpathmap) (retry : Int)
    (hne : inst ≠ []) (hsize : inst.length < 2 ^ 31) (h1 : retry < 10000) :
    (iteration env g h inst retry).instances = inst
      ∧ (iteration env g h inst retry).retry = retry + 1
      ∧ (iteration env g h inst retry).unsentcountafter = (inst.length : Int)
      ∧ ((iteration env g h inst retry).events.filter Event.isBatchEntry).length = 1
      ∧ ((∀ h1, env.cancelEvent h1 = false) →
          (iteration env g h inst retry).again = decide (retry + 1 < 10000)) := by
  have hi : (iteration env g h inst retry).instances = inst := by
    rw [iteration_instances, attempt_pos env h g inst hne hsize, SendABatch_noack env hno]
  have hr := (iteration_counter env g h inst retry hne hsize h1).1 (by rw [hi])
  have hpos : 0 < inst.length := List.length_pos.mpr hne
  have ha : (iteration env g h inst retry).unsentcountafter = (inst.length : Int) := by
    rw [iteration_unsentcountafter, ← iteration_instances env g h inst retry, hi,
      toInt32_of_lt _ hsize]
  refine ⟨hi, hr, ha, ?_, ?_⟩
  · rw [iteration_events, List.filter_append, List.filter_append,
      filter_batchEntry_sleep _ (backoff_events_kind env _ _ _ _),
      attempt_pos env h g inst hne hsize, SendABatch_filter_batchEntry]
    simp [Event.isBatchEntry, List.filter]
  · intro hcan
    have hr2 := hr
    rw [iteration_retry] at hr2
    have ha2 := ha
    rw [iteration_unsentcountafter] at ha2
    rw [iteration_again, hcan, hr2, ha2]
    have : decide ((inst.length : Int) > 0) = true := by
      simp only [decide_eq_true_eq]
      exact_mod_cast hpos
    rw [this]
    simp

theorem sendLoop_stall (env : Env) (hcan : ∀ h, env.cancelEvent h = false)
    (hno : ∀ h k p, env.sendSTORERequest h k p ≠ .good) (g : mapset) (inst : naturalpathmap)
    (hne : inst ≠ []) (hsize : inst.length < 2 ^ 31) :
    ∀ (n : Nat) (retry : Int) (h : List Event) (fuel : Nat),
      retry + (n + 1 : Nat) = 10000 → n + 1 ≤ fuel →
      ∃ lr, sendLoop env g fuel h inst retry = some lr ∧ lr.instances = inst
        ∧ lr.retry = 10000 ∧ lr.unsentcountafter = (inst.length : Int)
        ∧ (lr.events.filter Event.isBatchEntry).length = n + 1 := by
  intro n
  induction n with
  | zero =>
    intro retry h fuel hr hf
    obtain ⟨f, rfl⟩ : ∃ f, fuel = f + 1 := ⟨fuel - 1, by omega⟩
    obtain ⟨hi, hr1, ha, hc, hag⟩ :=
      iteration_stall env hno g h inst retry hne hsize (by omega)
    have hagain : ¬ (iteration env g h inst retry).again = true := by
      rw [hag hcan]
      simp only [decide_eq_true_eq]
      omega
    rw [sendLoop_succ, if_neg hagain]
    exact ⟨_, rfl, hi, by simp only; omega, ha, hc⟩
  | succ n ih =>
    intro retry h fuel hr hf
    obtain ⟨f, rfl⟩ : ∃ f, fuel = f + 1 := ⟨fuel - 1, by omega⟩
    obtain ⟨hi, hr1, ha, hc, hag⟩ :=
      iteration_stall env hno g h inst retry hne hsize (by omega)
    have hagain : (iteration env g h inst retry).again = true := by
      rw [hag hcan]
      simp only [decide_eq_true_eq]
      omega
    rw [sendLoop_succ, if_pos hagain, hi, hr1]
    obtain ⟨lr, hl, hli, hlr, hla, hlc⟩ :=
      ih (retry + 1) (h ++ (iteration env g h inst retry).events) f
        (by push_cast at hr ⊢; omega) (by omega)
    rw [hl]
    refine ⟨_, rfl, hli, hlr, hla, ?_⟩
    simp only [List.filter_append, List.length_append]
    omega

theorem iteration_again_pending (env : Env) (g : mapset) (h : List Event)
    (inst : naturalpathmap) (retry : Int)
    (hag : (iteration env g h inst retry).again = true) :
    (iteration env g h inst retry).instances ≠ []
      ∧ (iteration env g h inst retry).retry < 10000 := by
  rw [iteration_again] at hag
  simp only [Bool.and_eq_true, Bool.not_eq_true', decide_eq_true_eq] at hag
  rw [iteration_instances, iteration_retry]
  refine ⟨?_, hag.2⟩
  intro hem
  rw [hem] at hag
  simp [toInt32] at hag

/-- C5. `SendStudy` returns for every behaviour of the collaborators: with fuel
above `10001 * size + 10000` the loop is left, and the result does not depend on
the fuel.  The loop goes on only while instances are pending and `retry < 10000`.
With cancellation never requested (and fewer than 2^31 instances) it is left with
an empty pending set or with `retry = 10000`.  When moreover no send is ever
acknowledged and the scan found instances, `SendABatch` is entered exactly 10000
times, the pending set at the end is the scanned one and `SetStudyCheck` is not
called. -/
theorem SendStudy_terminates (env : Env) (path : DirEntry) (fuel : Nat)
    (hfuel : (ScanDir env path [] ScanState.init).1.instances.length * 10001 + 10000 < fuel) :
    ∃ r, SendStudy env fuel path = some r
      ∧ (∀ fuel1 r1, SendStudy env fuel1 path = some r1 → r1 = r)
      ∧ (∀ g h inst retry, (iteration env g h inst retry).again = true →
          (iteration env g h inst retry).instances ≠ []
            ∧ (iteration env g h inst retry).retry < 10000)
      ∧ ((∀ h, env.cancelEvent h = false) →
          (ScanDir env path [] ScanState.init).1.instances.length < 2 ^ 31 →
          r.instances = [] ∨ r.retry = 10000)
      ∧ ((∀ h, env.cancelEvent h = false) →
          (∀ h k p, env.sendSTORERequest h k p ≠ .good) →
          (ScanDir env path [] ScanState.init).1.instances ≠ [] →
          (ScanDir env path [] ScanState.init).1.instances.length < 2 ^ 31 →
          (r.events.filter Event.isBatchEntry).length = 10000
            ∧ r.instances = (ScanDir env path [] ScanState.init).1.instances
            ∧ r.retry = 10000
            ∧ r.events.filter Event.isSetStudyCheck = []) := by
  obtain ⟨lr, hl⟩ := sendLoop_terminates env (ScanDir env path [] ScanState.init).1.grouping
    fuel (ScanDir env path [] ScanState.init).2
    (ScanDir env path [] ScanState.init).1.instances 0 (le_refl _) (by norm_num)
    (by simpa using hfuel)
  have hS : SendStudy env fuel path = some ⟨lr.instances,
      (ScanDir env path [] ScanState.init).1.study_uid, lr.retry,
      (ScanDir env path [] ScanState.init).2 ++ lr.events ++
        (if lr.unsentcountafter = 0 then
          [Event.setStudyCheck (ScanDir env path [] ScanState.init).1.study_uid false]
        else [])⟩ := by
    simp only [SendStudy, hl]
  obtain ⟨hsub, hafter, hkind, _, _, hexit⟩ :=
    sendLoop_result env _ fuel _ _ 0 lr (le_refl _) (by norm_num) hl
  have hlen := hsub.length_le
  refine ⟨_, hS, ?_, fun g h inst retry => iteration_again_pending env g h inst retry, ?_, ?_⟩
  · intro fuel1 r1 h1
    obtain ⟨lr1, hl1, hi1, hu1, hr1, he1⟩ := SendStudy_eq_some env fuel1 path r1 h1
    have e1 := sendLoop_mono env _ _ _ _ _ _ hl1 fuel
    have e2 := sendLoop_mono env _ _ _ _ _ _ hl fuel1
    rw [Nat.add_comm] at e2
    rw [e1] at e2
    simp only [Option.some.injEq] at e2
    subst e2
    cases r1
    simp only at hi1 hu1 hr1 he1
    subst hi1 hu1 hr1 he1
    rfl
  · intro hcan hsize
    simp only
    rcases hexit hcan with hz | hz
    · left
      rw [hafter, toInt32_of_lt _ (by omega)] at hz
      exact List.length_eq_zero.mp (by omega)
    · exact Or.inr hz
  · intro hcan hno hne hsize
    obtain ⟨lr2, hl2, hli, hlr, hla, hlc⟩ :=
      sendLoop_stall env hcan hno (ScanDir env path [] ScanState.init).1.grouping
        (ScanDir env path [] ScanState.init).1.instances hne hsize 9999 0
        (ScanDir env path [] ScanState.init).2 fuel (by norm_num) (by omega)
    rw [hl] at hl2
    simp only [Option.some.injEq] at hl2
    subst hl2
    have hpos : 0 < (ScanDir env path [] ScanState.init).1.instances.length :=
      List.length_pos.mpr hne
    have hnz : ¬ lr.unsentcountafter = 0 := by
      rw [hla]
      omega
    simp only [if_neg hnz, List.append_nil, List.filter_append, List.length_append]
    refine ⟨?_, hli, hlr, ?_⟩
    · have hscan : (ScanDir env path [] ScanState.init).2.filter Event.isBatchEntry = [] := by
        apply List.filter_eq_nil_iff.mpr
        intro x hx
        obtain ⟨b, rfl⟩ := ScanDir_events env path [] ScanState.init x hx
        simp [Event.isBatchEntry]
      rw [hscan, hlc]
      rfl
    · rw [filter_mark_scan, filter_mark_loop _ hkind]
      rfl

/-! ## Empty pending sets and cancellation -/

theorem iteration_nil (env : Env) (g : mapset) (h : List Event) (retry : Int) :
    iteration env g h [] retry
      = ⟨[], 0, 0, [Event.isCanceled .loopCond (env.cancelEvent h)], false⟩ := by
  simp [iteration, attempt, backoff, toInt32, IsCanceled]

theorem sendLoop_nil (env : Env) (g : mapset) (fuel : Nat) (h : List Event) (retry : Int) :
    sendLoop env g (fuel + 1) h [] retry
      = some ⟨[], 0, 0, [Event.isCanceled .loopCond (env.cancelEvent h)]⟩ := by
  rw [sendLoop_succ, iteration_nil]
  simp

theorem ScanDir_empty_uid (env : Env) (e : DirEntry) (h : List Event) :
    (ScanDir env e h ScanState.init).1.instances = [] →
      (ScanDir env e h ScanState.init).1.study_uid = "" := by
  apply ScanDir_invariant env (fun s => s.instances = [] → s.study_uid = "")
  · intro p c s hs
    cases c with
    | none => exact hs
    | some d =>
      intro hem
      exfalso
      simp only [ScanFile] at hem
      cases hi : s.instances with
      | nil => rw [hi] at hem; simp [mapInsert] at hem
      | cons a rest =>
        rw [hi] at hem
        obtain ⟨k1, v1⟩ := a
        simp only [mapInsert] at hem
        split at hem
        · cases hem
        · split at hem <;> cases hem
  · intro _; rfl

/-- C6. When the scan of the study yields an empty pending set and cancellation is
not requested, `SendStudy` returns after one evaluation of the loop condition: the
calls after the scan are that `IsCanceled()` and one `SetStudyCheck(study_uid,
false)`, where `study_uid` is still the empty string; the scan only polls the
cancel flag; so the run has no transport call, no `SendABatch`, no sleep. -/
theorem SendStudy_empty_scan (env : Env) (path : DirEntry) (fuel : Nat)
    (hempty : (ScanDir env path [] ScanState.init).1.instances = [])
    (hcan : ∀ h, env.cancelEvent h = false) :
    ∃ r, SendStudy env (fuel + 1) path = some r
      ∧ r.instances = [] ∧ r.study_uid = ""
      ∧ r.events = (ScanDir env path [] ScanState.init).2
          ++ [Event.isCanceled .loopCond false, Event.setStudyCheck "" false]
      ∧ (∀ e ∈ (ScanDir env path [] ScanState.init).2, e = Event.isCanceled .scanDir false)
      ∧ (r.events.filter Event.isLoopCond).length = 1
      ∧ r.events.filter Event.isTransport = []
      ∧ r.events.filter Event.isBatchEntry = []
      ∧ r.events.filter Event.isSleep = []
      ∧ r.events.filter Event.isSetStudyCheck = [Event.setStudyCheck "" false] := by
  have huid := ScanDir_empty_uid env path [] hempty
  have hscan : ∀ e ∈ (ScanDir env path [] ScanState.init).2,
      e = Event.isCanceled .scanDir false := by
    intro e he
    obtain ⟨h1, rfl⟩ := ScanDir_events env path [] ScanState.init e he
    rw [hcan]
  have hS : SendStudy env (fuel + 1) path = some ⟨[], "", 0,
      (ScanDir env path [] ScanState.init).2
        ++ [Event.isCanceled .loopCond false, Event.setStudyCheck "" false]⟩ := by
    simp only [SendStudy, hempty, sendLoop_nil, huid, hcan]
    simp
  have hf : ∀ q : Event → Bool, q (Event.isCanceled .scanDir false) = false →
      (ScanDir env path [] ScanState.init).2.filter q = [] := by
    intro q hq
    apply List.filter_eq_nil_iff.mpr
    intro x hx
    rw [hscan x hx, hq]
    simp
  refine ⟨_, hS, rfl, rfl, rfl, hscan, ?_, ?_, ?_, ?_, ?_⟩
  · rw [List.filter_append, hf Event.isLoopCond rfl]; rfl
  · rw [List.filter_append, hf Event.isTransport rfl]; rfl
  · rw [List.filter_append, hf Event.isBatchEntry rfl]; rfl
  · rw [List.filter_append, hf Event.isSleep rfl]; rfl
  · rw [List.filter_append, hf Event.isSetStudyCheck rfl]; rfl

theorem ScanDir_cancelled (env : Env) (p : String) (entries : List DirEntry)
    (hent : entries ≠ []) (hcan : env.cancelEvent [] = true) :
    ScanDir env (.directory p entries) [] ScanState.init
      = (ScanState.init, [Event.isCanceled .scanDir true]) := by
  cases entries with
  | nil => exact absurd rfl hent
  | cons e rest =>
    cases e <;> simp [ScanDir, ScanEntries, IsCanceled, hcan]

/-- C10 (as the code has it). When the cancel flag is set at the first poll of the
scan of a study directory that has entries, the scan stops with an empty pending
set and `study_uid` still empty; `SendStudy` then makes no transport call and
calls `SetStudyCheck` exactly once, with the empty string as identifier: the whole
run is the poll of the scan, the poll of the loop condition, and
`SetStudyCheck("", false)`. -/
theorem SendStudy_cancelled_scan (env : Env) (fuel : Nat) (p : String)
    (entries : List DirEntry) (hent : entries ≠ []) (hcan : env.cancelEvent [] = true) :
    SendStudy env (fuel + 1) (.directory p entries)
      = some ⟨[], "", 0,
          [Event.isCanceled .scanDir true,
            Event.isCanceled .loopCond (env.cancelEvent [Event.isCanceled .scanDir true]),
            Event.setStudyCheck "" false]⟩ := by
  simp only [SendStudy]
  rw [ScanDir_cancelled env p entries hent hcan]
  simp only [ScanState.init, sendLoop_nil]
  simp

theorem sleepLoop_cancelled (env : Env) (n : Nat) (h : List Event)
    (hcan : env.cancelEvent (h ++ [Event.sleep 200]) = true) :
    sleepLoop env (n + 1) h = [Event.sleep 200, Event.isCanceled .sleepLoop true] := by
  simp [sleepLoop, IsCanceled, hcan]

theorem filter_sleep_batch (evs : List Event) (hk : ∀ e ∈ evs, e.isBatchEvent = true) :
    evs.filter Event.isSleep = [] := by
  apply List.filter_eq_nil_iff.mpr
  intro e he
  have := hk e he
  cases e <;> simp [Event.isBatchEvent, Event.isSleep] at this ⊢

/-- C9 (as the code has it). An iteration of the `SendStudy` loop (pending set of
fewer than 2^31 instances, `retry < 10000`) in which the cancel flag is set when the
batch attempt returns with instances still pending, and stays set: the loop is left
in this iteration; when the attempt removed no instance, exactly one sleep
increment `Sleep(200)` is executed before the flag is polled, and when it removed
at least one there is no sleep. -/
theorem SendStudy_cancelled_after_batch (env : Env) (g : mapset) (h : List Event)
    (inst : naturalpathmap) (retry : Int) (fuel : Nat)
    (hsize : inst.length < 2 ^ 31) (h1 : retry < 10000)
    (hpend : (attempt env h g inst).instances ≠ [])
    (hcan : ∀ h2, env.cancelEvent (h ++ (attempt env h g inst).events ++ h2) = true) :
    ∃ lr, sendLoop env g (fuel + 1) h inst retry = some lr
      ∧ lr.instances = (attempt env h g inst).instances
      ∧ lr.events = (attempt env h g inst).events
          ++ (if (attempt env h g inst).instances.length = inst.length then
              [Event.sleep 200, Event.isCanceled .sleepLoop true] else [])
          ++ [Event.isCanceled .loopCond true]
      ∧ lr.events.filter Event.isSleep
          = (if (attempt env h g inst).instances.length = inst.length then [Event.sleep 200]
            else [])
      ∧ lr.events.filter Event.isSetStudyCheck = [] := by
  have hle := (attempt_sublist env h g inst).length_le
  have hpos : 0 < (attempt env h g inst).instances.length := List.length_pos.mpr hpend
  have hw : backoff env (h ++ (attempt env h g inst).events) (toInt32 inst.length)
      (toInt32 (attempt env h g inst).instances.length) retry
      = if (attempt env h g inst).instances.length = inst.length then
          (retry + 1, [Event.sleep 200, Event.isCanceled .sleepLoop true])
        else (0, []) := by
    rw [toInt32_of_lt _ hsize, toInt32_of_lt _ (by omega)]
    unfold backoff
    by_cases heq : (attempt env h g inst).instances.length = inst.length
    · rw [if_pos heq, if_pos ⟨by exact_mod_cast hpos, by rw [heq], h1⟩]
      rw [show (5 * 60 * 1 : Nat) = 299 + 1 from rfl, sleepLoop_cancelled env 299 _ (hcan _)]
    · rw [if_neg heq, if_neg]
      intro hc
      exact heq (by exact_mod_cast hc.2.1.symm)
  have hagain : (iteration env g h inst retry).again = false := by
    rw [iteration_again, hcan]
    rfl
  have hev : (iteration env g h inst retry).events = (attempt env h g inst).events
      ++ (if (attempt env h g inst).instances.length = inst.length then
          [Event.sleep 200, Event.isCanceled .sleepLoop true] else [])
      ++ [Event.isCanceled .loopCond true] := by
    rw [iteration_events, hcan, hw]
    split <;> rfl
  rw [sendLoop_succ, if_neg (by rw [hagain]; simp)]
  refine ⟨_, rfl, iteration_instances env g h inst retry, hev, ?_, ?_⟩
  · simp only
    rw [hev, List.filter_append, List.filter_append,
      filter_sleep_batch _ (attempt_events_kind env h g inst)]
    split <;> rfl
  · exact filter_mark_loop _ (iteration_events_kind env g h inst retry)

/-! ## The class and format grouping -/

theorem stringLess_trans (a b c : String) (h1 : stringLess a b = true)
    (h2 : stringLess b c = true) : stringLess a c = true := by
  unfold stringLess at *
  refine lexLess_trans _ ?_ ?_ _ _ _ h1 h2
  · intro x y z hxy hyz
    simp only [decide_eq_true_eq] at *
    omega
  · intro x y hxy hyx
    simp only [decide_eq_false_iff_not] at *
    have hxy2 : x.toNat = y.toNat := by omega
    have := congrArg Char.ofNat hxy2
    simpa using this

theorem stringLess_irrefl (a : String) : stringLess a a = false := by
  unfold stringLess
  exact lexLess_irrefl _ (by simp) _

theorem stringLess_total (a b : String) (h1 : stringLess a b = false)
    (h2 : stringLess b a = false) : a = b := by
  unfold stringLess at *
  apply String.ext
  refine lexLess_total _ ?_ _ _ h1 h2
  intro x y hxy hyx
  simp only [decide_eq_false_iff_not] at *
  have hxy2 : x.toNat = y.toNat := by omega
  have := congrArg Char.ofNat hxy2
  simpa using this

theorem setInsert_mem (x : String) :
    ∀ (l : List String) (y : String), y ∈ setInsert x l ↔ y = x ∨ y ∈ l := by
  intro l
  induction l with
  | nil => intro y; simp [setInsert]
  | cons a rest ih =>
    intro y
    simp only [setInsert]
    split
    · simp
    · split
      · simp only [List.mem_cons, ih]
        tauto
      · rename_i h1 h2
        have hxa : x = a := stringLess_total x a (by simpa using h1) (by simpa using h2)
        subst hxa
        simp

theorem setInsert_sorted (x : String) :
    ∀ l : List String, l.Pairwise (fun a b => stringLess a b = true) →
      (setInsert x l).Pairwise (fun a b => stringLess a b = true) := by
  intro l
  induction l with
  | nil => intro _; simp [setInsert]
  | cons a rest ih =>
    intro hl
    have hhead := (List.pairwise_cons.mp hl).1
    have htail := (List.pairwise_cons.mp hl).2
    simp only [setInsert]
    split
    · rename_i hlt
      refine List.pairwise_cons.mpr ⟨?_, hl⟩
      intro y hy
      rcases List.mem_cons.mp hy with rfl | hy
      · exact hlt
      · exact stringLess_trans _ _ _ hlt (hhead y hy)
    · split
      · rename_i hlt
        refine List.pairwise_cons.mpr ⟨?_, ih htail⟩
        intro y hy
        rcases (setInsert_mem x rest y).mp hy with rfl | hy
        · exact hlt
        · exact hhead y hy
      · exact hl

theorem mapsetAdd_mem (key x : String) :
    ∀ (g : mapset) (e : String × List String), e ∈ mapsetAdd key x g →
      e ∈ g ∨ e = (key, [x]) ∨ ∃ s, (key, s) ∈ g ∧ e = (key, setInsert x s) := by
  intro g
  induction g with
  | nil => intro e he; simp [mapsetAdd, setInsert] at he; exact Or.inr (Or.inl he)
  | cons a rest ih =>
    intro e he
    obtain ⟨k1, s1⟩ := a
    simp only [mapsetAdd] at he
    split at he
    · rcases List.mem_cons.mp he with rfl | he
      · exact Or.inr (Or.inl (by simp [setInsert]))
      · exact Or.inl he
    · split at he
      · rcases List.mem_cons.mp he with rfl | he
        · exact Or.inl (List.mem_cons_self _ _)
        · rcases ih e he with h | h | ⟨s, hs, h⟩
          · exact Or.inl (List.mem_cons_of_mem _ h)
          · exact Or.inr (Or.inl h)
          · exact Or.inr (Or.inr ⟨s, List.mem_cons_of_mem _ hs, h⟩)
      · rename_i h1 h2
        have hk : key = k1 := stringLess_total key k1 (by simpa using h1) (by simpa using h2)
        subst hk
        rcases List.mem_cons.mp he with rfl | he
        · exact Or.inr (Or.inr ⟨s1, List.mem_cons_self _ _, rfl⟩)
        · exact Or.inl (List.mem_cons_of_mem _ he)

theorem mapsetAdd_inGrouping (key x : String) :
    ∀ (g : mapset) (c f : String),
      InGrouping (mapsetAdd key x g) c f ↔ (c = key ∧ f = x) ∨ InGrouping g c f := by
  intro g
  induction g with
  | nil =>
    intro c f
    simp only [InGrouping, mapsetAdd, setInsert, List.mem_singleton, Prod.mk.injEq,
      List.not_mem_nil, false_and, exists_false, or_false]
    constructor
    · rintro ⟨fs, ⟨rfl, rfl⟩, hf⟩
      exact ⟨rfl, by simpa using hf⟩
    · rintro ⟨rfl, rfl⟩
      exact ⟨[f], ⟨rfl, rfl⟩, by simp⟩
  | cons a rest ih =>
    intro c f
    obtain ⟨k1, s1⟩ := a
    have hcons : ∀ (k : String) (s : List String) (r : mapset),
        InGrouping ((k, s) :: r) c f ↔ (c = k ∧ f ∈ s) ∨ InGrouping r c f := by
      intro k s r
      constructor
      · rintro ⟨fs, hm, hf⟩
        rcases List.mem_cons.mp hm with heq | hm
        · simp only [Prod.mk.injEq] at heq
          exact Or.inl ⟨heq.1, heq.2 ▸ hf⟩
        · exact Or.inr ⟨fs, hm, hf⟩
      · rintro (⟨rfl, hf⟩ | ⟨fs, hm, hf⟩)
        · exact ⟨s, List.mem_cons_self _ _, hf⟩
        · exact ⟨fs, List.mem_cons_of_mem _ hm, hf⟩
    simp only [mapsetAdd]
    split
    · rw [hcons, hcons]
      simp [setInsert]
    · split
      · rw [hcons, ih, hcons]
        tauto
      · rename_i h1 h2
        have hk : key = k1 := stringLess_total key k1 (by simpa using h1) (by simpa using h2)
        subst hk
        rw [hcons, hcons, setInsert_mem]
        tauto

theorem mapsetAdd_sorted (key x : String) :
    ∀ g : mapset, GroupingSorted g → GroupingSorted (mapsetAdd key x g) := by
  intro g
  induction g with
  | nil =>
    intro _
    refine ⟨by simp [mapsetAdd], ?_⟩
    intro e he
    simp only [mapsetAdd, setInsert, List.mem_singleton] at he
    subst he
    simp
  | cons a rest ih =>
    intro hg
    obtain ⟨k1, s1⟩ := a
    obtain ⟨hkeys, hsets⟩ := hg
    have hhead := (List.pairwise_cons.mp hkeys).1
    have htail := (List.pairwise_cons.mp hkeys).2
    have hrest : GroupingSorted rest :=
      ⟨htail, fun e he => hsets e (List.mem_cons_of_mem _ he)⟩
    simp only [mapsetAdd]
    split
    · rename_i hlt
      constructor
      · refine List.pairwise_cons.mpr ⟨?_, hkeys⟩
        intro y hy
        rcases List.mem_cons.mp hy with rfl | hy
        · exact hlt
        · exact stringLess_trans _ _ _ hlt (hhead y hy)
      · intro e he
        rcases List.mem_cons.mp he with rfl | he
        · simp [setInsert]
        · exact hsets e he
    · split
      · rename_i hlt
        obtain ⟨ihk, ihs⟩ := ih hrest
        constructor
        · refine List.pairwise_cons.mpr ⟨?_, ihk⟩
          intro y hy
          rcases mapsetAdd_mem key x rest y hy with hy | rfl | ⟨s, hs, rfl⟩
          · exact hhead y hy
          · exact hlt
          · exact hlt
        · intro e he
          rcases List.mem_cons.mp he with rfl | he
          · exact hsets _ (List.mem_cons_self _ _)
          · exact ihs e he
      · constructor
        · refine List.pairwise_cons.mpr ⟨?_, htail⟩
          intro y hy
          exact hhead y hy
        · intro e he
          rcases List.mem_cons.mp he with rfl | he
          · exact setInsert_sorted x s1 (hsets _ (List.mem_cons_self _ _))
          · exact hsets e (List.mem_cons_of_mem _ he)

theorem ScanEntries_parsed (env : Env) (hcan : ∀ h, env.cancelEvent h = false) :
    ∀ (items : List (String × DcmInfo)) (h : List Event) (s : ScanState),
      (ScanEntries env (parsedFiles items) h s).1
        = items.foldl (fun s it => ScanFile it.1 (some it.2) s) s := by
  intro items
  induction items with
  | nil => intro h s; simp [parsedFiles, ScanEntries]
  | cons it rest ih =>
    intro h s
    have := ih (h ++ [Event.isCanceled .scanDir false]) (ScanFile it.1 (some it.2) s)
    simp only [parsedFiles] at this
    simp [parsedFiles, ScanEntries, IsCanceled, hcan, this]

theorem foldl_ScanFile_inGrouping :
    ∀ (items : List (String × DcmInfo)) (s : ScanState) (c f : String),
      InGrouping (items.foldl (fun s it => ScanFile it.1 (some it.2) s) s).grouping c f
        ↔ InGrouping s.grouping c f ∨ ∃ it ∈ items, it.2.sopclassuid = c ∧ it.2.xfer = f := by
  intro items
  induction items with
  | nil => intro s c f; simp
  | cons it rest ih =>
    intro s c f
    rw [List.foldl_cons, ih]
    simp only [ScanFile, mapsetAdd_inGrouping, List.mem_cons, exists_eq_or_imp]
    constructor
    · rintro ((⟨rfl, rfl⟩ | hg) | hex)
      · exact Or.inr (Or.inl ⟨rfl, rfl⟩)
      · exact Or.inl hg
      · exact Or.inr (Or.inr hex)
    · rintro (hg | ⟨rfl, rfl⟩ | hex)
      · exact Or.inl (Or.inr hg)
      · exact Or.inl (Or.inl ⟨rfl, rfl⟩)
      · exact Or.inr hex

theorem foldl_ScanFile_sorted :
    ∀ (items : List (String × DcmInfo)) (s : ScanState), GroupingSorted s.grouping →
      GroupingSorted (items.foldl (fun s it => ScanFile it.1 (some it.2) s) s).grouping := by
  intro items
  induction items with
  | nil => intro s hs; exact hs
  | cons it rest ih =>
    intro s hs
    rw [List.foldl_cons]
    exact ih _ (mapsetAdd_sorted _ _ _ hs)

theorem nonDefaultXfers_eq_filter (l : List String) :
    nonDefaultXfers l = l.filter (fun x => x != UID_LittleEndianExplicitTransferSyntax) := by
  induction l with
  | nil => rfl
  | cons a rest ih =>
    simp only [nonDefaultXfers, List.filter_cons, ih]

theorem proposedContexts_append (a b : List Event) :
    proposedContexts (a ++ b) = proposedContexts a ++ proposedContexts b := by
  induction a with
  | nil => rfl
  | cons e rest ih => cases e <;> simp [proposedContexts, ih]

theorem proposedContexts_proposeContexts (g : mapset) :
    proposedContexts (proposeContexts g) = g.flatMap contextsOfClass := by
  induction g with
  | nil => rfl
  | cons a rest ih =>
    obtain ⟨c, x⟩ := a
    simp only [proposeContexts, proposedContexts_append, ih, List.flatMap_cons, contextsOfClass,
      nonDefaultXfers_eq_filter]
    by_cases hnil : x.filter (fun x => x != UID_LittleEndianExplicitTransferSyntax) = []
    · simp [hnil, proposedContexts]
    · have hpos : (x.filter (fun x => x != UID_LittleEndianExplicitTransferSyntax)).length > 0 :=
        List.length_pos.mpr hnil
      simp [hnil, hpos, proposedContexts]

theorem proposedContexts_sendItems (env : Env) :
    ∀ (l : naturalpathmap) (h : List Event),
      proposedContexts (sendItems env l h).events = [] := by
  intro l
  induction l with
  | nil => intro h; simp [sendItems, proposedContexts]
  | cons a rest ih =>
    intro h
    obtain ⟨k1, p1⟩ := a
    cases hc : env.cancelEvent h with
    | true => rw [sendItems_cancel env k1 p1 rest h hc]; rfl
    | false =>
      cases hs : env.sendSTORERequest (h ++ [Event.isCanceled .batchItem false]) k1 p1 with
      | good =>
        rw [sendItems_good env k1 p1 rest h hc hs]
        simpa [proposedContexts] using ih _
      | peerAborted => rw [sendItems_abort env k1 p1 rest h hc hs]; rfl
      | otherError =>
        rw [sendItems_other env k1 p1 rest h hc hs]
        simpa [proposedContexts] using ih _

theorem proposedContexts_SendABatch (env : Env) (h : List Event) (g : mapset)
    (inst : naturalpathmap) (hc : env.cancelEvent h = false) :
    proposedContexts (SendABatch env h g inst).events = g.flatMap contextsOfClass := by
  simp only [SendABatch, IsCanceled, hc, Bool.false_eq_true, if_false]
  split
  · simp [proposedContexts_append, proposedContexts, proposedContexts_proposeContexts]
  · split
    · simp [proposedContexts_append, proposedContexts, proposedContexts_proposeContexts]
    · split <;>
        simp [proposedContexts_append, proposedContexts, proposedContexts_proposeContexts,
          proposedContexts_sendItems]

/-- C7. For a study directory whose entries are regular files that all load, scanned
without cancellation: a format identifier is in the set the grouping holds for a
class identifier exactly when some scanned file has that class and that format;
each class has one entry and the formats of a set are distinct (both in ascending
order); and for every grouping, a `SendABatch` that is not cancelled at its entry
proposes, class after class, the context with the formats of the class other than
`UID_LittleEndianExplicitTransferSyntax` (only when there is one) followed by the
context with that default format alone, and nothing else. -/
theorem ScanFile_grouping_and_contexts (env : Env) (hcan : ∀ h, env.cancelEvent h = false)
    (p : String) (items : List (String × DcmInfo)) :
    (∀ c f, InGrouping
        (ScanDir env (.directory p (parsedFiles items)) [] ScanState.init).1.grouping c f
        ↔ ∃ it ∈ items, it.2.sopclassuid = c ∧ it.2.xfer = f)
      ∧ GroupingSorted
        (ScanDir env (.directory p (parsedFiles items)) [] ScanState.init).1.grouping
      ∧ (∀ (g : mapset) (h : List Event) (inst : naturalpathmap),
          proposedContexts (SendABatch env h g inst).events = g.flatMap contextsOfClass) := by
  have hscan : (ScanDir env (.directory p (parsedFiles items)) [] ScanState.init).1
      = items.foldl (fun s it => ScanFile it.1 (some it.2) s) ScanState.init := by
    rw [ScanDir]
    exact ScanEntries_parsed env hcan items [] ScanState.init
  rw [hscan]
  refine ⟨?_, ?_, ?_⟩
  · intro c f
    rw [foldl_ScanFile_inGrouping]
    simp [InGrouping, ScanState.init]
  · apply foldl_ScanFile_sorted
    exact ⟨by simp [ScanState.init], by simp [ScanState.init]⟩
  · intro g h inst
    exact proposedContexts_SendABatch env h g inst (hcan h)

/-! ## The theorems at concrete studies -/

/-- C1 at `studyThree` with every send acknowledged: the run ends with an empty
pending set and its last call is `SetStudyCheck("1.2.3", false)`. -/
theorem SendStudy_marks_sent_iff_pending_empty_witness :
    (ScanDir envAllGood studyThree [] ScanState.init).1.instances.length < 2 ^ 31
      ∧ SendStudy envAllGood 2 studyThree = some (runThree)
      ∧ ((Event.setStudyCheck runThree.study_uid false ∈ runThree.events
            ↔ runThree.instances = [])
          ∧ (runThree.instances ≠ [] → runThree.events.filter Event.isSetStudyCheck = [])
          ∧ (runThree.instances = [] → runThree.events.filter Event.isSetStudyCheck
              = [Event.setStudyCheck runThree.study_uid false])) :=
  ⟨by decide, rfl,
    SendStudy_marks_sent_iff_pending_empty envAllGood 2 studyThree runThree (by decide) rfl⟩

/-- C2 at three pending instances when the peer aborts on the second: the first is
removed, the aborted one and the one never attempted stay, and the aborted send is
the last call. -/
theorem SendABatch_removes_exactly_acknowledged_witness :
    (threeItems.map Prod.fst).Nodup
      ∧ (SendABatch envAbortSecond [] [] threeItems).instances
          = [("2", "study/b.dcm"), ("3", "study/c.dcm")]
      ∧ sentIds (SendABatch envAbortSecond [] [] threeItems).events = ["1", "2"]
      ∧ (SendABatch envAbortSecond [] [] threeItems).instances
          = threeItems.filter (fun x => decide
              (Event.sendSTORERequest x.1 x.2 .good
                ∉ (SendABatch envAbortSecond [] [] threeItems).events))
      ∧ (SendABatch envAbortSecond [] [] threeItems).instances.length
          + ((SendABatch envAbortSecond [] [] threeItems).events.filter Event.isAck).length
          = threeItems.length
      ∧ ((SendABatch envAbortSecond [] [] threeItems).ret = 1
          ∧ ∃ pre l1 l2 kept,
            (SendABatch envAbortSecond [] [] threeItems).events
                = pre ++ [Event.sendSTORERequest "2" "study/b.dcm" .peerAborted]
              ∧ threeItems = l1 ++ ("2", "study/b.dcm") :: l2
              ∧ sentIds pre = l1.map Prod.fst
              ∧ kept.Sublist l1
              ∧ (SendABatch envAbortSecond [] [] threeItems).instances
                  = kept ++ ("2", "study/b.dcm") :: l2
              ∧ kept.length
                  + ((SendABatch envAbortSecond [] [] threeItems).events.filter
                      Event.isAck).length
                  = l1.length) :=
  ⟨by decide, rfl, rfl,
    (SendABatch_removes_exactly_acknowledged envAbortSecond [] [] threeItems (by decide)).1,
    (SendABatch_removes_exactly_acknowledged envAbortSecond [] [] threeItems (by decide)).2.1,
    (SendABatch_removes_exactly_acknowledged envAbortSecond [] [] threeItems
      (by decide)).2.2.2.2 "2" "study/b.dcm" (by decide)⟩

/-- C3 at the study with identifiers "3", "10", "2": the sends go "2", "3", "10". -/
theorem SendABatch_sends_in_natural_order_witness :
    sentIds (SendABatch envAllGood [] []
        (ScanDir envAllGood studyThree [] ScanState.init).1.instances).events = ["2", "3", "10"]
      ∧ (sentIds (SendABatch envAllGood [] []
          (ScanDir envAllGood studyThree [] ScanState.init).1.instances).events).Pairwise
            (fun a b => naturalLess a b = true)
      ∧ stringLess "10" "2" = true :=
  ⟨rfl,
    (SendABatch_sends_in_natural_order envAllGood envAllGood studyThree [] [] []
      (ScanDir envAllGood studyThree [] ScanState.init).1.instances (List.Sublist.refl _)).2.1,
    rfl⟩

/-- C4 at three pending instances with no send acknowledged: `retry` goes from 0 to
1 in the pass. -/
theorem SendStudy_retry_counter_witness :
    threeItems ≠ [] ∧ threeItems.length < 2 ^ 31 ∧ (0 : Int) < 10000
      ∧ ((iteration envStall [] [] threeItems 0).events.filter Event.isAck).length = 0
      ∧ (iteration envStall [] [] threeItems 0).retry = 0 + 1 :=
  ⟨by decide, by decide, by decide, rfl,
    (SendStudy_retry_counter envStall [] [] threeItems 0 (by decide) (by decide)
      (by decide)).2.1 rfl⟩

/-- C5 at `studyOne` with no send ever acknowledged: the run returns, after 10000
entries of `SendABatch`, with the instance still pending and no `SetStudyCheck`. -/
theorem SendStudy_terminates_witness :
    (ScanDir envNoAck studyOne [] ScanState.init).1.instances.length * 10001 + 10000 < 20002
      ∧ ∃ r, SendStudy envNoAck 20002 studyOne = some r
        ∧ (r.events.filter Event.isBatchEntry).length = 10000
        ∧ r.instances = [("1.2.3.1", "study/a.dcm")]
        ∧ r.retry = 10000
        ∧ r.events.filter Event.isSetStudyCheck = [] := by
  refine ⟨by decide, ?_⟩
  obtain ⟨r, hr, _, _, _, hstall⟩ := SendStudy_terminates envNoAck studyOne 20002 (by decide)
  exact ⟨r, hr, hstall (fun _ => rfl) (fun _ _ _ => by simp [envNoAck]) (by decide)
    (by decide)⟩

/-- C6 at a study directory with nothing that loads. -/
theorem SendStudy_empty_scan_witness :
    (ScanDir envAllGood studyNothing [] ScanState.init).1.instances = []
      ∧ SendStudy envAllGood 1 studyNothing
        = some ⟨[], "", 0,
            [Event.isCanceled .scanDir false, Event.isCanceled .scanDir false,
              Event.isCanceled .loopCond false, Event.setStudyCheck "" false]⟩
      ∧ ∃ r, SendStudy envAllGood (0 + 1) studyNothing = some r
        ∧ r.instances = [] ∧ r.study_uid = ""
        ∧ r.events = (ScanDir envAllGood studyNothing [] ScanState.init).2
            ++ [Event.isCanceled .loopCond false, Event.setStudyCheck "" false]
        ∧ (∀ e ∈ (ScanDir envAllGood studyNothing [] ScanState.init).2,
            e = Event.isCanceled .scanDir false)
        ∧ (r.events.filter Event.isLoopCond).length = 1
        ∧ r.events.filter Event.isTransport = []
        ∧ r.events.filter Event.isBatchEntry = []
        ∧ r.events.filter Event.isSleep = []
        ∧ r.events.filter Event.isSetStudyCheck = [Event.setStudyCheck "" false] :=
  ⟨rfl, rfl, SendStudy_empty_scan envAllGood studyNothing 0 rfl (fun _ => rfl)⟩

/-- C7 at files of classes A, A, B with formats X, Y, X, X the default format: the
grouping is A to X and Y, B to X; the contexts are Y for A, the default for A, the
default for B. -/
theorem ScanFile_grouping_and_contexts_witness :
    (∀ h, envAllGood.cancelEvent h = false)
      ∧ (ScanDir envAllGood (.directory "study" (parsedFiles groupingItems)) []
          ScanState.init).1.grouping
        = [("A", [UID_LittleEndianExplicitTransferSyntax, "Y"]),
           ("B", [UID_LittleEndianExplicitTransferSyntax])]
      ∧ proposedContexts (SendABatch envAllGood []
          (ScanDir envAllGood (.directory "study" (parsedFiles groupingItems)) []
            ScanState.init).1.grouping []).events
        = [("A", ["Y"]), ("A", [UID_LittleEndianExplicitTransferSyntax]),
           ("B", [UID_LittleEndianExplicitTransferSyntax])]
      ∧ (∀ c f, InGrouping
          (ScanDir envAllGood (.directory "study" (parsedFiles groupingItems)) []
            ScanState.init).1.grouping c f
          ↔ ∃ it ∈ groupingItems, it.2.sopclassuid = c ∧ it.2.xfer = f) :=
  ⟨fun _ => rfl, rfl, rfl,
    (ScanFile_grouping_and_contexts envAllGood (fun _ => rfl) "study" groupingItems).1⟩

/-- C8 as stated fails: in `studyDuplicate` the files `study/a.dcm` and
`study/b.dcm` both load with the instance identifier "1.2.3.1" and are scanned in
this order; after the scan the pending set has one entry for the identifier, and
its location is `study/a.dcm`, the file scanned first, not `study/b.dcm`. -/
theorem ScanFile_last_write_wins_fails :
    (ScanDir envAllGood studyDuplicate [] ScanState.init).1.instances
        = [("1.2.3.1", "study/a.dcm")]
      ∧ (ScanDir envAllGood studyDuplicate [] ScanState.init).1.instances
        ≠ [("1.2.3.1", "study/b.dcm")] :=
  ⟨rfl, by decide⟩

/-- C9 at `studyOne` when the cancel flag is set during the batch: one sleep
increment, then the loop is left. -/
theorem SendStudy_cancelled_after_batch_witness :
    [("1.2.3.1", "study/a.dcm")].length < 2 ^ 31 ∧ (0 : Int) < 10000
      ∧ (attempt envCancelMidBatch [] [] [("1.2.3.1", "study/a.dcm")]).instances ≠ []
      ∧ (∀ h2, envCancelMidBatch.cancelEvent
          ([] ++ (attempt envCancelMidBatch [] [] [("1.2.3.1", "study/a.dcm")]).events ++ h2)
            = true)
      ∧ ∃ lr, sendLoop envCancelMidBatch [] (0 + 1) [] [("1.2.3.1", "study/a.dcm")] 0 = some lr
        ∧ lr.events.filter Event.isSleep
          = (if (attempt envCancelMidBatch [] [] [("1.2.3.1", "study/a.dcm")]).instances.length
                = [("1.2.3.1", "study/a.dcm")].length then [Event.sleep 200]
            else []) := by
  have hcan : ∀ h2, envCancelMidBatch.cancelEvent
      ([] ++ (attempt envCancelMidBatch [] [] [("1.2.3.1", "study/a.dcm")]).events ++ h2)
        = true := by
    intro h2
    have hev : (attempt envCancelMidBatch [] [] [("1.2.3.1", "study/a.dcm")]).events
        = [Event.isCanceled .batchEntry false, Event.initNetwork true,
            Event.negotiateAssociation true, Event.isCanceled .batchItem true,
            Event.releaseAssociation] := rfl
    rw [hev]
    simp [envCancelMidBatch]
  obtain ⟨lr, hl, _, _, hsleep, _⟩ := SendStudy_cancelled_after_batch envCancelMidBatch [] []
    [("1.2.3.1", "study/a.dcm")] 0 0 (by decide) (by decide) (by decide) hcan
  exact ⟨by decide, by decide, by decide, hcan, lr, hl, hsleep⟩

/-- C9 as stated fails: in the run of `SendStudy` on `studyOne` in which the cancel
flag is set once the session is negotiated (and stays set), the batch attempt
returns with the instance still pending and the flag set, and `SendStudy` then
executes one `Sleep(200)` of the backoff wait before it polls the flag and leaves. -/
theorem SendStudy_no_sleep_after_cancel_fails :
    SendStudy envCancelMidBatch 1 studyOne
      = some ⟨[("1.2.3.1", "study/a.dcm")], "1.2.3", 1,
          [Event.isCanceled .scanDir false, Event.isCanceled .batchEntry false,
            Event.addPresentationContext "1.2.840.10008.5.1.4.1.1.2" ["1.2.840.10008.1.2.1"],
            Event.initNetwork true, Event.negotiateAssociation true,
            Event.isCanceled .batchItem true, Event.releaseAssociation,
            Event.sleep 200, Event.isCanceled .sleepLoop true,
            Event.isCanceled .loopCond true]⟩ :=
  rfl

/-- C10 at `studyOne` with the cancel flag set from the start. -/
theorem SendStudy_cancelled_scan_witness :
    [dicomFile "study/a.dcm" "1.2.3" "1.2.3.1" "1.2.840.10008.5.1.4.1.1.2"
        "1.2.840.10008.1.2.1"] ≠ []
      ∧ envCancelled.cancelEvent [] = true
      ∧ SendStudy envCancelled (0 + 1) (.directory "study"
          [dicomFile "study/a.dcm" "1.2.3" "1.2.3.1" "1.2.840.10008.5.1.4.1.1.2"
            "1.2.840.10008.1.2.1"])
        = some ⟨[], "", 0,
            [Event.isCanceled .scanDir true,
              Event.isCanceled .loopCond
                (envCancelled.cancelEvent [Event.isCanceled .scanDir true]),
              Event.setStudyCheck "" false]⟩ :=
  ⟨by simp, rfl,
    SendStudy_cancelled_scan envCancelled 0 "study" _ (by simp) rfl⟩

/-- C10 as stated fails: `studyOne` holds a file that loads; with the cancel flag
set when the scan starts, the scan stops before the first entry, and `SendStudy`
makes no transport call but does call `SetStudyCheck`, with the empty string. -/
theorem SendStudy_no_mark_after_cancelled_scan_fails :
    SendStudy envCancelled 1 studyOne
      = some ⟨[], "", 0,
          [Event.isCanceled .scanDir true, Event.isCanceled .loopCond true,
            Event.setStudyCheck "" false]⟩ :=
  rfl

/-! ## First write wins -/

theorem naturalEquiv_iff (a b : String) :
    naturalEquiv a b ↔ naturalChunks a.toList none = naturalChunks b.toList none := by
  constructor
  · intro hab
    exact lexLess_total chunkLess chunkLess_total _ _ hab.1 hab.2
  · intro hk
    unfold naturalEquiv naturalLess
    rw [hk]
    exact ⟨lexLess_irrefl chunkLess chunkLess_irrefl _, lexLess_irrefl chunkLess chunkLess_irrefl _⟩

theorem naturalEquiv_refl (a : String) : naturalEquiv a a :=
  (naturalEquiv_iff a a).mpr rfl

theorem naturalEquiv_symm {a b : String} (h : naturalEquiv a b) : naturalEquiv b a :=
  ⟨h.2, h.1⟩

theorem naturalEquiv_trans {a b c : String} (h1 : naturalEquiv a b) (h2 : naturalEquiv b c) :
    naturalEquiv a c :=
  (naturalEquiv_iff a c).mpr
    (((naturalEquiv_iff a b).mp h1).trans ((naturalEquiv_iff b c).mp h2))

theorem naturalLess_congr_left {a b : String} (h : naturalEquiv a b) (c : String) :
    naturalLess a c = naturalLess b c := by
  unfold naturalLess
  rw [(naturalEquiv_iff a b).mp h]

theorem naturalLess_congr_right {a b : String} (h : naturalEquiv a b) (c : String) :
    naturalLess c a = naturalLess c b := by
  unfold naturalLess
  rw [(naturalEquiv_iff a b).mp h]

theorem naturalLess_asymm {a b : String} (h : naturalLess a b = true) :
    naturalLess b a = false := by
  cases hba : naturalLess b a with
  | false => rfl
  | true =>
    have := naturalLess_trans a b a h hba
    rw [naturalLess_irrefl] at this
    cases this

theorem mapInsert_present (k v : String) :
    ∀ m : naturalpathmap, m.Pairwise (fun a b => naturalLess a.1 b.1 = true) →
      (∃ x ∈ m, naturalEquiv x.1 k) → mapInsert naturalLess k v m = m := by
  intro m
  induction m with
  | nil => intro _ hex; obtain ⟨x, hx, _⟩ := hex; cases hx
  | cons a rest ih =>
    intro hs hex
    obtain ⟨k1, v1⟩ := a
    have hhead := (List.pairwise_cons.mp hs).1
    have htail := (List.pairwise_cons.mp hs).2
    by_cases he : naturalEquiv k1 k
    · simp [mapInsert, he.1, he.2]
    · obtain ⟨x, hx, hxe⟩ := hex
      rcases List.mem_cons.mp hx with rfl | hx
      · exact absurd hxe he
      · have h1 : naturalLess k1 k = true := by
          rw [← naturalLess_congr_right hxe k1]
          exact hhead x hx
        have h2 : naturalLess k k1 = false := naturalLess_asymm h1
        simp [mapInsert, h1, h2, ih htail ⟨x, hx, hxe⟩]

theorem mapInsert_sorted_mem (k0 v0 : String) (m : naturalpathmap)
    (hs : m.Pairwise (fun a b => naturalLess a.1 b.1 = true)) (e : String × String) :
    e ∈ mapInsert naturalLess k0 v0 m
      ↔ e ∈ m ∨ (e = (k0, v0) ∧ ∀ x ∈ m, ¬ naturalEquiv x.1 k0) := by
  by_cases hex : ∃ x ∈ m, naturalEquiv x.1 k0
  · rw [mapInsert_present k0 v0 m hs hex]
    constructor
    · exact Or.inl
    · rintro (hm | ⟨_, hno⟩)
      · exact hm
      · obtain ⟨x, hx, hxe⟩ := hex
        exact absurd hxe (hno x hx)
  · have hno : ∀ x ∈ m, ¬ naturalEquiv x.1 k0 := fun x hx hxe => hex ⟨x, hx, hxe⟩
    have hfresh : ∀ x ∈ m, naturalLess k0 x.1 = true ∨ naturalLess x.1 k0 = true := by
      intro x hx
      cases h1 : naturalLess k0 x.1 with
      | true => exact Or.inl rfl
      | false =>
        cases h2 : naturalLess x.1 k0 with
        | true => exact Or.inr rfl
        | false => exact absurd ⟨h2, h1⟩ (hno x hx)
    obtain ⟨l1, l2, hl, hins⟩ := mapInsert_fresh naturalLess k0 v0 m hfresh
    rw [hins, hl]
    simp only [List.mem_append, List.mem_cons]
    constructor
    · rintro (hm | rfl | hm)
      · exact Or.inl (Or.inl hm)
      · exact Or.inr ⟨rfl, fun x hx => hno x (by rw [hl]; exact List.mem_append.mpr hx)⟩
      · exact Or.inl (Or.inr hm)
    · rintro ((hm | hm) | ⟨rfl, _⟩)
      · exact Or.inl hm
      · exact Or.inr (Or.inr hm)
      · exact Or.inr (Or.inl rfl)

mutual
theorem ScanDir_eq_scanTrace (env : Env) :
    ∀ (e : DirEntry) (h : List Event) (s : ScanState),
      ScanDir env e h s
        = ((scanTrace env e h).1.foldl (fun s c => ScanFile c.1 c.2 s) s, (scanTrace env e h).2)
  | .directory _ entries, h, s => by
    rw [ScanDir, scanTrace]
    exact ScanEntries_eq_scanTrace env entries h s
  | .regularFile _ _, _, s => by rw [ScanDir, scanTrace]; rfl
  | .other _, _, s => by rw [ScanDir, scanTrace]; rfl
theorem ScanEntries_eq_scanTrace (env : Env) :
    ∀ (es : List DirEntry) (h : List Event) (s : ScanState),
      ScanEntries env es h s
        = ((scanTraceEntries env es h).1.foldl (fun s c => ScanFile c.1 c.2 s) s,
            (scanTraceEntries env es h).2)
  | [], _, s => by rw [ScanEntries, scanTraceEntries]; rfl
  | .regularFile path content :: rest, h, s => by
    simp only [ScanEntries, scanTraceEntries]
    split
    · rfl
    · rw [ScanEntries_eq_scanTrace env rest]
      simp
  | .directory path entries :: rest, h, s => by
    simp only [ScanEntries, scanTraceEntries]
    split
    · rfl
    · rw [ScanDir_eq_scanTrace env (.directory path entries)]
      simp only
      rw [ScanEntries_eq_scanTrace env rest]
      simp [List.foldl_append]
  | .other _ :: rest, h, s => by
    simp only [ScanEntries, scanTraceEntries]
    split
    · rfl
    · rw [ScanEntries_eq_scanTrace env rest]
      simp
end

theorem FirstLoaded_nil (k v : String) : ¬ FirstLoaded [] k v := by
  rintro ⟨l1, d, l2, hl, _⟩
  cases l1 <;> cases hl

theorem FirstLoaded_cons_none (p : String) (rest : List (String × Option DcmInfo))
    (k v : String) : FirstLoaded ((p, none) :: rest) k v ↔ FirstLoaded rest k v := by
  constructor
  · rintro ⟨l1, d, l2, hl, hd, hno⟩
    cases l1 with
    | nil => simp at hl
    | cons a l1 =>
      simp only [List.cons_append, List.cons.injEq] at hl
      exact ⟨l1, d, l2, hl.2, hd, fun x hx => hno x (List.mem_cons_of_mem _ hx)⟩
  · rintro ⟨l1, d, l2, hl, hd, hno⟩
    refine ⟨(p, none) :: l1, d, l2, by rw [hl]; rfl, hd, ?_⟩
    intro x hx d1 hx1
    rcases List.mem_cons.mp hx with rfl | hx
    · cases hx1
    · exact hno x hx d1 hx1

theorem FirstLoaded_cons_some (p : String) (d0 : DcmInfo)
    (rest : List (String × Option DcmInfo)) (k v : String) :
    FirstLoaded ((p, some d0) :: rest) k v
      ↔ (p = v ∧ d0.sopuid = k) ∨ (¬ naturalEquiv d0.sopuid k ∧ FirstLoaded rest k v) := by
  constructor
  · rintro ⟨l1, d, l2, hl, hd, hno⟩
    cases l1 with
    | nil =>
      simp only [List.nil_append, List.cons.injEq, Prod.mk.injEq, Option.some.injEq] at hl
      left
      exact ⟨hl.1.1, by rw [hl.1.2]; exact hd⟩
    | cons a l1 =>
      simp only [List.cons_append, List.cons.injEq] at hl
      right
      refine ⟨?_, l1, d, l2, hl.2, hd, fun x hx => hno x (List.mem_cons_of_mem _ hx)⟩
      exact hno a (List.mem_cons_self _ _) d0 (by rw [← hl.1])
  · rintro (⟨rfl, rfl⟩ | ⟨hne, l1, d, l2, hl, hd, hno⟩)
    · exact ⟨[], d0, rest, rfl, rfl, by simp⟩
    · refine ⟨(p, some d0) :: l1, d, l2, by rw [hl]; rfl, hd, ?_⟩
      intro x hx d1 hx1
      rcases List.mem_cons.mp hx with rfl | hx
      · simp only [Option.some.injEq] at hx1
        subst hx1
        exact hne
      · exact hno x hx d1 hx1

theorem foldl_ScanFile_instances_sorted :
    ∀ (calls : List (String × Option DcmInfo)) (s : ScanState),
      s.instances.Pairwise (fun a b => naturalLess a.1 b.1 = true) →
      (calls.foldl (fun s c => ScanFile c.1 c.2 s) s).instances.Pairwise
        (fun a b => naturalLess a.1 b.1 = true) := by
  intro calls
  induction calls with
  | nil => intro s hs; exact hs
  | cons c rest ih =>
    intro s hs
    rw [List.foldl_cons]
    apply ih
    obtain ⟨p, content⟩ := c
    cases content with
    | none => exact hs
    | some d => exact mapInsert_pairwise naturalLess naturalLess_trans _ _ _ hs

theorem foldl_ScanFile_mem :
    ∀ (calls : List (String × Option DcmInfo)) (s : ScanState),
      s.instances.Pairwise (fun a b => naturalLess a.1 b.1 = true) →
      ∀ k v, (k, v) ∈ (calls.foldl (fun s c => ScanFile c.1 c.2 s) s).instances
        ↔ (k, v) ∈ s.instances
          ∨ ((∀ x ∈ s.instances, ¬ naturalEquiv x.1 k) ∧ FirstLoaded calls k v) := by
  intro calls
  induction calls with
  | nil =>
    intro s _ k v
    simp [FirstLoaded_nil]
  | cons c rest ih =>
    intro s hs k v
    obtain ⟨p, content⟩ := c
    rw [List.foldl_cons]
    cases content with
    | none =>
      rw [FirstLoaded_cons_none]
      exact ih s hs k v
    | some d0 =>
      have hs1 : (ScanFile p (some d0) s).instances.Pairwise
          (fun a b => naturalLess a.1 b.1 = true) :=
        mapInsert_pairwise naturalLess naturalLess_trans _ _ _ hs
      have hmem : ∀ e, e ∈ (ScanFile p (some d0) s).instances
          ↔ e ∈ s.instances ∨ (e = (d0.sopuid, p) ∧ ∀ x ∈ s.instances,
              ¬ naturalEquiv x.1 d0.sopuid) :=
        fun e => mapInsert_sorted_mem d0.sopuid p s.instances hs e
      rw [ih _ hs1 k v, FirstLoaded_cons_some, hmem]
      constructor
      · rintro ((hm | ⟨heq, hno⟩) | ⟨hno1, hfl⟩)
        · exact Or.inl hm
        · simp only [Prod.mk.injEq] at heq
          obtain ⟨rfl, rfl⟩ := heq
          exact Or.inr ⟨hno, Or.inl ⟨rfl, rfl⟩⟩
        · have hnos : ∀ x ∈ s.instances, ¬ naturalEquiv x.1 k :=
            fun x hx => hno1 x ((hmem x).mpr (Or.inl hx))
          refine Or.inr ⟨hnos, Or.inr ⟨?_, hfl⟩⟩
          intro hd0
          have hnod : ∀ x ∈ s.instances, ¬ naturalEquiv x.1 d0.sopuid :=
            fun x hx hxe => hnos x hx (naturalEquiv_trans hxe hd0)
          exact hno1 (d0.sopuid, p) ((hmem _).mpr (Or.inr ⟨rfl, hnod⟩)) hd0
      · rintro (hm | ⟨hnos, ⟨rfl, rfl⟩ | ⟨hd0, hfl⟩⟩)
        · exact Or.inl (Or.inl hm)
        · exact Or.inl (Or.inr ⟨rfl, hnos⟩)
        · refine Or.inr ⟨?_, hfl⟩
          intro x hx
          rcases (hmem x).mp hx with hx | ⟨rfl, _⟩
          · exact hnos x hx
          · exact hd0

theorem sorted_equiv_unique :
    ∀ m : naturalpathmap, m.Pairwise (fun a b => naturalLess a.1 b.1 = true) →
      ∀ e1 ∈ m, ∀ e2 ∈ m, naturalEquiv e1.1 e2.1 → e1 = e2 := by
  intro m
  induction m with
  | nil => intro _ e1 h1; cases h1
  | cons a rest ih =>
    intro hs e1 h1 e2 h2 heq
    have hhead := (List.pairwise_cons.mp hs).1
    have htail := (List.pairwise_cons.mp hs).2
    rcases List.mem_cons.mp h1 with h1a | h1r
    · rcases List.mem_cons.mp h2 with h2a | h2r
      · rw [h1a, h2a]
      · have := hhead e2 h2r
        rw [← h1a, heq.1] at this
        cases this
    · rcases List.mem_cons.mp h2 with h2a | h2r
      · have := hhead e1 h1r
        rw [← h2a, heq.2] at this
        cases this
      · exact ih htail e1 h1r e2 h2r heq

theorem exists_first_loaded (k : String) :
    ∀ calls : List (String × Option DcmInfo),
      (∃ x ∈ calls, ∃ d, x.2 = some d ∧ naturalEquiv d.sopuid k) →
      ∃ k1 v1, naturalEquiv k1 k ∧ FirstLoaded calls k1 v1 := by
  intro calls
  induction calls with
  | nil => rintro ⟨x, hx, _⟩; cases hx
  | cons c rest ih =>
    intro hex
    obtain ⟨p, content⟩ := c
    cases content with
    | none =>
      have hex2 : ∃ x ∈ rest, ∃ d, x.2 = some d ∧ naturalEquiv d.sopuid k := by
        obtain ⟨x, hx, d, hd, he⟩ := hex
        rcases List.mem_cons.mp hx with rfl | hx
        · cases hd
        · exact ⟨x, hx, d, hd, he⟩
      obtain ⟨k1, v1, he, hfl⟩ := ih hex2
      exact ⟨k1, v1, he, (FirstLoaded_cons_none p rest k1 v1).mpr hfl⟩
    | some d0 =>
      by_cases hd0 : naturalEquiv d0.sopuid k
      · exact ⟨d0.sopuid, p, hd0, (FirstLoaded_cons_some p d0 rest _ _).mpr (Or.inl ⟨rfl, rfl⟩)⟩
      · have hex2 : ∃ x ∈ rest, ∃ d, x.2 = some d ∧ naturalEquiv d.sopuid k := by
          obtain ⟨x, hx, d, hd, he⟩ := hex
          rcases List.mem_cons.mp hx with rfl | hx
          · simp only [Option.some.injEq] at hd
            subst hd
            exact absurd he hd0
          · exact ⟨x, hx, d, hd, he⟩
        obtain ⟨k1, v1, he, hfl⟩ := ih hex2
        refine ⟨k1, v1, he, (FirstLoaded_cons_some p d0 rest k1 v1).mpr (Or.inr ⟨?_, hfl⟩)⟩
        intro h1
        exact hd0 (naturalEquiv_trans h1 he)

theorem FirstLoaded_append (l r : List (String × Option DcmInfo)) (k v : String)
    (h : FirstLoaded l k v) : FirstLoaded (l ++ r) k v := by
  obtain ⟨l1, d, l2, hl, hd, hno⟩ := h
  exact ⟨l1, d, l2 ++ r, by rw [hl]; simp, hd, hno⟩

/-- C8 (as the code has it). `ScanFile` adds the instance with `insert`, which
leaves the map alone when an equivalent identifier is already there.  For every
scan (any directory tree, any behaviour of the cancel flag), with `calls` the
`ScanFile` calls it makes in order: the scan is these calls; the identifiers of
the pending set are strictly ascending, so no two entries have equivalent
identifiers; `(k, v)` is an entry exactly when `v` is the first file scanned that
loads with an identifier equivalent to `k`, and `k` is the identifier of that
file; hence for two scanned files that load with the same identifier there is
exactly one entry with an equivalent identifier, and it is the identifier and
location of the first file, among those scanned up to the earlier of the two,
that loads with an equivalent identifier. -/
theorem ScanDir_first_write_wins (env : Env) (path : DirEntry) (h : List Event) :
    ScanDir env path h ScanState.init
        = ((scanTrace env path h).1.foldl (fun s c => ScanFile c.1 c.2 s) ScanState.init,
            (scanTrace env path h).2)
      ∧ (ScanDir env path h ScanState.init).1.instances.Pairwise
          (fun a b => naturalLess a.1 b.1 = true)
      ∧ (∀ k v, (k, v) ∈ (ScanDir env path h ScanState.init).1.instances
          ↔ FirstLoaded (scanTrace env path h).1 k v)
      ∧ (∀ l1 p1 d1 l2 p2 d2 l3,
          (scanTrace env path h).1 = l1 ++ (p1, some d1) :: l2 ++ (p2, some d2) :: l3 →
          d1.sopuid = d2.sopuid →
          ∃ k v, (k, v) ∈ (ScanDir env path h ScanState.init).1.instances
            ∧ naturalEquiv k d1.sopuid
            ∧ (∀ e ∈ (ScanDir env path h ScanState.init).1.instances,
                naturalEquiv e.1 d1.sopuid → e = (k, v))
            ∧ FirstLoaded (l1 ++ [(p1, some d1)]) k v) := by
  have hlink := ScanDir_eq_scanTrace env path h ScanState.init
  have hsorted := ScanDir_sorted env path h
  have hmem : ∀ k v, (k, v) ∈ (ScanDir env path h ScanState.init).1.instances
      ↔ FirstLoaded (scanTrace env path h).1 k v := by
    intro k v
    rw [hlink]
    simp only
    rw [foldl_ScanFile_mem _ ScanState.init (by simp [ScanState.init]) k v]
    simp [ScanState.init]
  refine ⟨hlink, hsorted, hmem, ?_⟩
  intro l1 p1 d1 l2 p2 d2 l3 hcalls _
  obtain ⟨k, v, hkeq, hfl⟩ := exists_first_loaded d1.sopuid (l1 ++ [(p1, some d1)])
    ⟨(p1, some d1), by simp, d1, rfl, naturalEquiv_refl _⟩
  have hfl2 : FirstLoaded (scanTrace env path h).1 k v := by
    rw [hcalls]
    have := FirstLoaded_append (l1 ++ [(p1, some d1)]) (l2 ++ (p2, some d2) :: l3) k v hfl
    simpa using this
  have hin := (hmem k v).mpr hfl2
  refine ⟨k, v, hin, hkeq, ?_, hfl⟩
  intro e he hee
  exact sorted_equiv_unique _ hsorted e he (k, v) hin (naturalEquiv_trans hee (naturalEquiv_symm hkeq))

/-- C8 at the studies with repeated identifiers: in `studyDuplicate` and in
`studyTriple` the one entry has the location of the first file; in
`studyLeadingZero` the one entry is that of the file with "1.2.3.01", scanned
first, and the two files with "1.2.3.1" add nothing. -/
theorem ScanDir_first_write_wins_witness :
    (scanTrace envAllGood studyDuplicate []).1
        = [] ++ ("study/a.dcm", some ⟨"1.2.3", "1.2.3.1", "1.2.840.10008.5.1.4.1.1.2",
            "1.2.840.10008.1.2.1"⟩) :: []
          ++ ("study/b.dcm", some ⟨"1.2.3", "1.2.3.1", "1.2.840.10008.5.1.4.1.1.2",
            "1.2.840.10008.1.2.1"⟩) :: []
      ∧ (∃ k v, (k, v) ∈ (ScanDir envAllGood studyDuplicate [] ScanState.init).1.instances
          ∧ naturalEquiv k "1.2.3.1"
          ∧ (∀ e ∈ (ScanDir envAllGood studyDuplicate [] ScanState.init).1.instances,
              naturalEquiv e.1 "1.2.3.1" → e = (k, v))
          ∧ FirstLoaded ([] ++ [("study/a.dcm", some ⟨"1.2.3", "1.2.3.1",
              "1.2.840.10008.5.1.4.1.1.2", "1.2.840.10008.1.2.1"⟩)]) k v)
      ∧ (ScanDir envAllGood studyTriple [] ScanState.init).1.instances
          = [("1.2.3.1", "study/a.dcm")]
      ∧ (ScanDir envAllGood studyLeadingZero [] ScanState.init).1.instances
          = [("1.2.3.01", "study/a.dcm")] :=
  ⟨rfl,
    (ScanDir_first_write_wins envAllGood studyDuplicate []).2.2.2 []
      "study/a.dcm" ⟨"1.2.3", "1.2.3.1", "1.2.840.10008.5.1.4.1.1.2", "1.2.840.10008.1.2.1"⟩ []
      "study/b.dcm" ⟨"1.2.3", "1.2.3.1", "1.2.840.10008.5.1.4.1.1.2", "1.2.840.10008.1.2.1"⟩ []
      rfl rfl,
    rfl, rfl⟩

end Tonoka
